import Mathlib

/-!
Shallow embedding of the m3u-epg-editor reconciliation pipeline
(src/m3u-epg-editor-py3.py) and verification of the specification claims.

Python strings are modelled as Lean `String` (or `List Char` inside the
record-format parser), Python `None` as `Option.none`, Python machine ints as
`Int`/`Nat`.  The two places where the code calls into Python's `re` engine
with a *configuration-supplied* pattern (`is_item_matched`,
`transform_string_value`) are parameterised by an abstract search function
`Rx` / substitution function `Rsub` standing for `re.search(p, s, re.IGNORECASE)`
/ `re.sub(p, r, s)`; the fixed, literal regexes used by the m3u record parser
(`tvg-name="(.*?)"` etc.) are embedded directly by executable functions.
-/

namespace M3U

/-- Python `str.lower()` on one character (ASCII-relevant fragment, as used by
all the comparisons the claims exercise). -/
def lowChar (c : Char) : Char := c.toLower

/-- Case-insensitive character equality, the effect of `re.IGNORECASE` on a
literal pattern character. -/
def ciEqC (a b : Char) : Bool := lowChar a == lowChar b

/-- Python `str.lower()`: character-wise lowercasing (spelled out over the
character list; `String.toLower` maps the same function over the string). -/
def lowStr (s : String) : String := ⟨s.data.map Char.toLower⟩

/-- Python `pat in s` (substring containment test). -/
def pyContains (s pat : List Char) : Bool :=
  match s with
  | [] => pat.isEmpty
  | _ :: rest => pat.isPrefixOf s || pyContains rest pat

/-- Fuelled worker for `pyReplace` (the fuel, seeded at `s.length + 1`, is an
upper bound on the number of scanning steps and exists only to make the
recursion structural). -/
def pyReplaceF (repl pat : List Char) : Nat → List Char → List Char
  | 0, s => s
  | _ + 1, [] => if pat.isEmpty then repl else []
  | fuel + 1, c :: rest =>
    if pat.isEmpty then repl ++ c :: pyReplaceF repl pat fuel rest
    else if pat.isPrefixOf (c :: rest) then
      repl ++ pyReplaceF repl pat fuel ((c :: rest).drop pat.length)
    else c :: pyReplaceF repl pat fuel rest

/-- Python `s.replace(pat, repl)`: replace every non-overlapping occurrence of
`pat`, scanning left to right; the empty pattern inserts `repl` before every
character and at the end, exactly as CPython does. -/
def pyReplace (s pat repl : List Char) : List Char :=
  pyReplaceF repl pat (s.length + 1) s

/-- String-level wrapper for `pyContains`. -/
def pyContainsS (s pat : String) : Bool := pyContains s.data pat.data

/-- String-level wrapper for `pyReplace`. -/
def pyReplaceS (s pat repl : String) : String := ⟨pyReplace s.data pat.data repl.data⟩

/-- Abstract stand-in for `re.search(pattern, s, re.IGNORECASE) is not None`
with a configuration-supplied pattern: the regex engine is an external
collaborator of the core. -/
def Rx : Type := String → String → Bool

/-- Abstract stand-in for `re.sub(pattern, repl, s)` with a
configuration-supplied pattern. -/
def Rsub : Type := String → String → String → String

/-- `sys.maxsize` on a 64-bit CPython build, the default `channel_idx`. -/
def sysMaxsize : Nat := 9223372036854775807

/-- One playlist entry (`class M3uItem`).  Attribute fields are `Option`al
because the extractor leaves an absent attribute as Python `None`. -/
structure M3uItem where
  tvg_name : Option String := none
  tvg_id : Option String := none
  tvg_logo : Option String := none
  group_title : Option String := none
  timeshift : Option String := none
  catchup_days : Option String := none
  catchup : Option String := none
  catchup_source : Option String := none
  name : Option String := none
  url : Option String := none
  group_idx : Nat := 0
  channel_idx : Nat := sysMaxsize
deriving Repr, DecidableEq

/-- `M3uItem.is_valid(self, allow_no_tvg_id)`. -/
def M3uItem.is_valid (e : M3uItem) (allow_no_tvg_id : Bool) : Bool :=
  let base := e.tvg_name.isSome && e.tvg_name != some "" &&
              e.group_title.isSome && e.group_title != some ""
  if !allow_no_tvg_id then
    base && e.tvg_id.isSome && e.tvg_id != some ""
  else base

/-- The rule-set / argument record consumed by the core, after
`validate_args` / `hydrate_args_from_json` has normalised it
(lists hydrated, numbering values resolved to ints). -/
structure Args where
  groupmode : String := "keep"
  groups : List String := []
  group_idx : List String := []
  discard_channels : List String := []
  include_channels : List String := []
  discard_urls : List String := []
  include_urls : List String := []
  id_transforms : List (String × String) := []
  group_transforms : List (String × String) := []
  channel_transforms : List (String × String) := []
  sortchannels : List String := []
  no_sort : Bool := false
  tvh_start : Int := 0
  tvh_offset : Int := 0
  no_tvg_id : Bool := false
  force_epg : Bool := false
  preserve_case : Bool := false
  http_for_images : Bool := false
  xml_sort_type : String := "none"
  range : Int := 168
deriving Repr, DecidableEq

/-- CLI post-processing of `--tvh_start` (`validate_args`):
`int(v) - 1` when supplied and non-empty, else `0`. -/
def cliTvhStart (v : Option Int) : Int :=
  match v with
  | some n => n - 1
  | none => 0

/-- CLI post-processing of `--tvh_offset` (`validate_args`):
`int(v)` when supplied, else `0`. -/
def cliTvhOffset (v : Option Int) : Int :=
  match v with
  | some n => n
  | none => 0

/-- `is_item_matched(item_list, item_name)`: exact (case-sensitive) membership
first, then any configured pattern as a case-insensitive regex; the empty list
never matches. -/
def is_item_matched (rx : Rx) (item_list : List String) (item_name : String) : Bool :=
  if item_list.length > 0 then
    let matched := item_list.contains item_name
    if !matched then item_list.any (fun r => rx r item_name)
    else matched
  else false

/-- `transform_string_value(string_value, compare_value, transforms)` for a
(non-`None`) string input.  Per rule `(src, repl)`: with a compare value
supplied, replace the whole value only when the compare value equals `src`
(and otherwise leave the value untouched); without one, literal-substring
replace when `src` occurs in the value, else regex substitution. -/
def transform_string_value (rsub : Rsub) (string_value : String)
    (compare_value : Option String) (transforms : List (String × String)) : String :=
  match transforms with
  | [] => string_value
  | (src_value, replacement_value) :: rest =>
    let v :=
      match compare_value with
      | some cv => if cv == src_value then replacement_value else string_value
      | none =>
        if pyContainsS string_value src_value then pyReplaceS string_value src_value replacement_value
        else rsub src_value replacement_value string_value
    transform_string_value rsub v compare_value rest

/-- The `tvg-id` transform call site passes `entry.tvg_id`, which may be Python
`None`; with a compare value supplied the value itself is never inspected, so
the call is total in that case.  This is that call, with the compare value
(`entry.tvg_name`, a `str` for every entry that passed `is_valid`). -/
def transform_id_value (string_value : Option String) (compare_value : String)
    (transforms : List (String × String)) : Option String :=
  match transforms with
  | [] => string_value
  | (src_value, replacement_value) :: rest =>
    let v := if compare_value == src_value then some replacement_value else string_value
    transform_id_value v compare_value rest

/-- The in-place transform block applied to an entry that survives the filter
decision (`filter_m3u_entries`, survivor branch).  `tvg_id` is transformed
against the pre-transform `tvg_name`; group, display name and shown name are
transformed unconditionally (all are non-`None` strings for entries that
passed `is_valid`, which is the only way into the pipeline). -/
def transformEntry (args : Args) (rsub : Rsub) (e : M3uItem) : M3uItem :=
  { e with
    tvg_id := transform_id_value e.tvg_id (e.tvg_name.getD "") args.id_transforms
    group_title := e.group_title.map
      (fun g => transform_string_value rsub g none args.group_transforms)
    tvg_name := e.tvg_name.map
      (fun n => transform_string_value rsub n none args.channel_transforms)
    name := e.name.map
      (fun n => transform_string_value rsub n none args.channel_transforms) }

/-- The per-entry keep/discard decision of `filter_m3u_entries`, exactly as
the code computes it (in particular `group_included` defaults to `false` for
a group mode that is neither `"keep"` nor `"discard"`). -/
def surviveCode (args : Args) (rx : Rx) (e : M3uItem) : Bool :=
  let group_matched := is_item_matched rx args.groups (e.group_title.getD "")
  let group_included :=
    if args.groupmode == "keep" then group_matched
    else if args.groupmode == "discard" then !group_matched
    else false
  let channel_discarded := is_item_matched rx args.discard_channels (e.tvg_name.getD "")
  let channel_always_kept := is_item_matched rx args.include_channels (e.tvg_name.getD "")
  let url_discarded := is_item_matched rx args.discard_urls (e.url.getD "")
  let url_always_kept := is_item_matched rx args.include_urls (e.url.getD "")
  let always_kept := channel_always_kept || url_always_kept
  (group_included && !channel_discarded && !url_discarded) || always_kept

/-- Python `sorted(entries, key=lambda e: e.tvg_name)`: stable ascending sort
by display name. -/
def sortByName (entries : List M3uItem) : List M3uItem :=
  entries.insertionSort (fun a b => a.tvg_name.getD "" ≤ b.tvg_name.getD "")

/-- The accumulation loop of `filter_m3u_entries`: each surviving entry is
transformed in place and appended. -/
def filterLoop (args : Args) (rx : Rx) (rsub : Rsub) : List M3uItem → List M3uItem
  | [] => []
  | e :: rest =>
    if surviveCode args rx e then transformEntry args rsub e :: filterLoop args rx rsub rest
    else filterLoop args rx rsub rest

/-- `filter_m3u_entries(args, m3u_entries)`: optional alphabetical pre-sort by
display name, then the filter/transform loop. -/
def filter_m3u_entries (args : Args) (rx : Rx) (rsub : Rsub)
    (m3u_entries : List M3uItem) : List M3uItem :=
  if m3u_entries.length > 0 then
    filterLoop args rx rsub (if !args.no_sort then sortByName m3u_entries else m3u_entries)
  else []

/-- Group-rank pass of `sort_m3u_entries`: walk the configured group list with
a 1-based index, stamping the index on every entry of that group. -/
def groupRankPass : Nat → List String → List M3uItem → List M3uItem
  | _, [], es => es
  | i, gt :: rest, es =>
    groupRankPass (i + 1) rest
      (es.map (fun e => if e.group_title == some gt then { e with group_idx := i + 1 } else e))

/-- One channel-rank assignment: Python
`next((x for x in m3u_entries if x.tvg_name.lower() == sort_channel.lower()), None)`
followed by `m3u_item.channel_idx = idx` — only the first matching entry is
updated. -/
def assignFirstChannel (sc : String) (i : Nat) : List M3uItem → List M3uItem
  | [] => []
  | e :: rest =>
    if lowStr (e.tvg_name.getD "") == lowStr sc then { e with channel_idx := i } :: rest
    else e :: assignFirstChannel sc i rest

/-- Channel-rank pass of `sort_m3u_entries`: 0-based walk of the configured
channel order. -/
def channelRankPass : Nat → List String → List M3uItem → List M3uItem
  | _, [], es => es
  | i, sc :: rest, es => channelRankPass (i + 1) rest (assignFirstChannel sc i es)

/-- Sort key comparison `(entry.group_idx, entry.channel_idx)` (Python tuple
order). -/
def rankLe (a b : M3uItem) : Prop :=
  a.group_idx < b.group_idx ∨ (a.group_idx = b.group_idx ∧ a.channel_idx ≤ b.channel_idx)

instance : DecidableRel rankLe := fun a b => by unfold rankLe; infer_instance

/-- Sort key comparison `(entry.group_title, entry.tvg_name)` (Python tuple
order on strings). -/
def alphaLe (a b : M3uItem) : Prop :=
  a.group_title.getD "" < b.group_title.getD "" ∨
    (a.group_title.getD "" = b.group_title.getD "" ∧ a.tvg_name.getD "" ≤ b.tvg_name.getD "")

instance : DecidableRel alphaLe := fun a b => by unfold alphaLe; infer_instance

/-- `sort_m3u_entries(args, m3u_entries)`: the group-rank pass always runs;
with a configured channel order the channel-rank pass runs and the entries are
sorted by `(group_idx, channel_idx)`, otherwise alphabetically by
`(group_title, tvg_name)`. -/
def sort_m3u_entries (args : Args) (m3u_entries : List M3uItem) : List M3uItem :=
  if args.sortchannels.length > 0 then
    (channelRankPass 0 args.sortchannels
      (groupRankPass 0 args.group_idx m3u_entries)).insertionSort rankLe
  else
    (groupRankPass 0 args.group_idx m3u_entries).insertionSort alphaLe

/-! ### The m3u record format: extraction and serialization

`M3uItem.__init__` extracts each attribute with
`re.search(key + '="(.*?)"', fields, re.IGNORECASE)` and the display text with
`re.search('" ?,(.*)$', fields, re.IGNORECASE)`.  Both literal regexes are
embedded as executable scanners over `List Char` with the exact leftmost-match
/ lazy-capture semantics of the originals. -/

/-- `ciEqC`-pairwise prefix test: does the literal pattern `pat` match (under
`re.IGNORECASE`) at the head of `s`? -/
def ciPre : List Char → List Char → Bool
  | [], _ => true
  | _ :: _, [] => false
  | a :: as, b :: bs => ciEqC a b && ciPre as bs

/-- `re.search(key + '="(.*?)"', s, re.IGNORECASE)` and `.group(1)`: scan left
to right for the first position where `key="` matches case-insensitively with
a closing quote somewhere after it, and capture lazily up to that quote. -/
def searchAttr (key : List Char) : List Char → Option (List Char)
  | [] => none
  | c :: cs =>
    if ciPre (key ++ ['=', '\"']) (c :: cs) && ((c :: cs).drop (key.length + 2)).contains '\"' then
      some (((c :: cs).drop (key.length + 2)).takeWhile (fun ch => !(ch == '\"')))
    else searchAttr key cs

/-- Does `' ?,'` match at the head (greedy optional space first, as the regex
engine tries it)?  Returns the capture (the rest of the line) on a match. -/
def quoteCommaTail (cs : List Char) : Option (List Char) :=
  match cs with
  | a :: b :: rest =>
    if a = ' ' ∧ b = ',' then some rest
    else if a = ',' then some (b :: rest) else none
  | [a] => if a = ',' then some [] else none
  | [] => none

/-- `re.search('" ?,(.*)$', s, re.IGNORECASE)` and `.group(1)`: the first
position holding a quote followed by an optional space and a comma; the
capture runs to the end of the line. -/
def nameSearch : List Char → Option (List Char)
  | [] => none
  | c :: cs =>
    if c = '\"' then
      match quoteCommaTail cs with
      | some r => some r
      | none => nameSearch cs
    else nameSearch cs

/-- `M3uItem.__init__(m3u_fields)` for a non-`None` fields string: every
attribute is extracted independently; a failing display-text search raises
`AttributeError`, which the constructor catches after all attribute
assignments, leaving `name = None`; finally an absent or empty `tvg-name`
falls back to the display text. -/
def mkM3uItem (m3u_fields : String) : M3uItem :=
  let d := m3u_fields.data
  let get := fun (k : String) => (searchAttr k.data d).map (fun l => String.mk l)
  let e : M3uItem :=
    { tvg_name := get "tvg-name"
      tvg_id := get "tvg-id"
      tvg_logo := get "tvg-logo"
      group_title := get "group-title"
      timeshift := get "timeshift"
      catchup_days := get "catchup-days"
      catchup := get "catchup"
      catchup_source := get "catchup-source"
      name := (nameSearch d).map (fun l => String.mk l) }
  if e.tvg_name == none || e.tvg_name == some "" then { e with tvg_name := e.name } else e

/-- First index at which `sep` occurs in `s` (exact, case-sensitive), the
basis of Python `s.split(sep)`. -/
def findSubIdx (sep : List Char) : List Char → Option Nat
  | [] => if sep.isEmpty then some 0 else none
  | c :: cs =>
    if sep.isPrefixOf (c :: cs) then some 0
    else (findSubIdx sep cs).map (· + 1)

/-- Python `s.split(sep)[1]`: the segment between the first and second
occurrence of `sep` (to the end of the string when there is no second
occurrence); `none` when `sep` does not occur (`IndexError`). -/
def splitPart1 (sep s : List Char) : Option (List Char) :=
  match findSubIdx sep s with
  | none => none
  | some i =>
    let r := s.drop (i + sep.length)
    match findSubIdx sep r with
    | none => some r
    | some j => some (r.take j)

/-- The body of the `parse_m3u` loop for one two-line record (a stripped
`#EXTINF:` metadata line followed by a non-empty URL line): split off the
`#EXTINF:` header, extract the fields, attach the URL, and keep the entry only
if it is valid.  `none` models both the header-split `IndexError` and the
validity rejection. -/
def parseRecord (no_tvg_id : Bool) (metaLine urlLine : String) : Option M3uItem :=
  if !("#EXTINF:".data.isPrefixOf metaLine.data) then none
  else if urlLine = "" then none
  else
    let fields :=
      if "#EXTINF:0".data.isPrefixOf metaLine.data then
        splitPart1 "#EXTINF:0 ".data metaLine.data
      else splitPart1 "#EXTINF:-1 ".data metaLine.data
    match fields with
    | none => none
    | some f =>
      let entry := { mkM3uItem (String.mk f) with url := some urlLine }
      if entry.is_valid no_tvg_id then some entry else none

/-- Decimal digit characters of a natural number (fuelled worker). -/
def natDigits : Nat → Nat → List Char
  | 0, _ => []
  | fuel + 1, n =>
    if n < 10 then [Char.ofNat (48 + n)]
    else natDigits fuel (n / 10) ++ [Char.ofNat (48 + n % 10)]

/-- Decimal rendering of a natural number. -/
def natStr (n : Nat) : String := ⟨natDigits (n + 1) n⟩

/-- Decimal rendering of an `Int` (`'%s' % idx` on a Python int). -/
def intStr (n : Int) : String :=
  if n < 0 then "-" ++ natStr n.natAbs else natStr n.toNat

/-- Python `'%s' % value` where `value` may be `None`. -/
def pyStr (o : Option String) : String := o.getD "None"

/-- A conditional single-attribute fragment: emitted only when the field is
present. -/
def optAttr {α : Type} (k : String) (f : α → String) (o : Option α) :
    List (String × String) :=
  match o with
  | some x => [(k, f x)]
  | none => []

/-- The attribute list serialized by `save_new_m3u` for one entry, in emission
order; `chnum` is the `tvh-chnum` value when channel numbering is active and
`logo` is the already-policy-filtered logo value. -/
def metaAttrs (args : Args) (e : M3uItem) (chnum : Option Int) (logo : Option String) :
    List (String × String) :=
  optAttr "tvh-chnum" intStr chnum ++
  optAttr "tvg-id" (fun i => if !args.preserve_case then lowStr i else i) e.tvg_id ++
  [("tvg-name", pyStr e.tvg_name)] ++
  optAttr "tvg-logo" (fun l => l) logo ++
  optAttr "group-title" (fun g => g) e.group_title ++
  optAttr "timeshift" (fun t => t) e.timeshift ++
  optAttr "catchup-days" (fun c => c) e.catchup_days ++
  optAttr "catchup" (fun c => c) e.catchup ++
  optAttr "catchup-source" (fun c => c) e.catchup_source

/-- The logo policy of `save_new_m3u`: with `--http_for_images`, a non-`None`
logo that does not start with `http` is blanked. -/
def logoPolicy (args : Args) (e : M3uItem) : Option String :=
  if args.http_for_images && e.tvg_logo.isSome then
    e.tvg_logo.map (fun l => if "http".data.isPrefixOf l.data then l else "")
  else e.tvg_logo

/-- Tail renderer for `fieldsOf`: later attributes carry their separating
space. -/
def fieldsTail : List (String × String) → String → List Char
  | [], nm => ',' :: nm.data
  | (k, v) :: rest, nm => ' ' :: (k.data ++ '=' :: '\"' :: (v.data ++ '\"' :: fieldsTail rest nm))

/-- Renders `key="value"` attribute segments separated by single spaces, then
`,` and the display text — the metadata line layout produced by
`save_new_m3u` after the `#EXTINF:-1 ` header. -/
def fieldsOf : List (String × String) → String → List Char
  | [], nm => ',' :: nm.data
  | (k, v) :: rest, nm => k.data ++ '=' :: '\"' :: (v.data ++ '\"' :: fieldsTail rest nm)

/-- One ` key="value"` fragment as `save_new_m3u` formats it. -/
def renderAttr (kv : String × String) : String :=
  " " ++ kv.1 ++ "=\"" ++ kv.2 ++ "\""

/-- Concatenation of the attribute fragments, in order. -/
def renderAttrs : List (String × String) → String
  | [] => ""
  | kv :: rest => renderAttr kv ++ renderAttrs rest

/-- The full metadata line written by `save_new_m3u` for one entry (without
the trailing newline, i.e. as `parse_m3u` sees it after `strip()`): the
`#EXTINF:-1` header, the attribute fragments, a comma and the display text. -/
def metaLineOf (args : Args) (e : M3uItem) (chnum : Option Int) : String :=
  "#EXTINF:-1" ++ renderAttrs (metaAttrs args e chnum (logoPolicy args e))
    ++ "," ++ pyStr e.name

/-- The per-entry loop of `save_new_m3u`, threading the running counter `idx`
and the previous group `gt`; produces the `(metadata line, url line)` record
pairs.  `none` models the `ZeroDivisionError` raised by
`floor = (idx // args.tvh_offset)` at a group boundary when the configured
offset is `0` while numbering is enabled. -/
def saveLoop (args : Args) : Int → Option String → List M3uItem →
    Option (List (String × String))
  | _, _, [] => some []
  | idx, gt, e :: rest =>
    if args.tvh_start > 0 || args.tvh_offset > 0 then
      if e.group_title == gt then
        let idx2 := idx + 1
        (saveLoop args idx2 gt rest).map ((metaLineOf args e (some idx2), pyStr e.url) :: ·)
      else
        if args.tvh_offset == 0 then none
        else
          let floor := Int.fdiv idx args.tvh_offset
          let idx2 := args.tvh_offset * (floor + 1) + 1
          (saveLoop args idx2 e.group_title rest).map
            ((metaLineOf args e (some idx2), pyStr e.url) :: ·)
    else
      (saveLoop args idx gt rest).map ((metaLineOf args e none, pyStr e.url) :: ·)

/-- `save_new_m3u(args, m3u_entries)` as the list of records it writes after
the `#EXTM3U` header; the counter is seeded with `args.tvh_start` and the
group tracker with the first entry's group (`m3u_entries[0].group_title`,
an `IndexError` — modelled `none` — on an empty list). -/
def save_new_m3u (args : Args) (m3u_entries : List M3uItem) :
    Option (List (String × String)) :=
  match m3u_entries with
  | [] => none
  | e0 :: _ => saveLoop args args.tvh_start e0.group_title m3u_entries

/-- Just the sequence of emitted `tvh-chnum` counter values for a sequence of
group labels, mirroring the numbering thread of `saveLoop` (same recurrence,
same `ZeroDivisionError` condition). -/
def tvhNums (offset : Int) : Int → Option String → List (Option String) → Option (List Int)
  | _, _, [] => some []
  | idx, gt, gr :: rest =>
    if gr == gt then (tvhNums offset (idx + 1) gt rest).map ((idx + 1) :: ·)
    else if offset == 0 then none
    else
      let idx2 := offset * (Int.fdiv idx offset + 1) + 1
      (tvhNums offset idx2 gr rest).map (idx2 :: ·)

/-! ### The guide (EPG) model and `create_new_epg` -/

/-- A sub-element of a guide `channel` node (`display-name`, `icon`, ...). -/
structure XmlSub where
  tag : String
  text : Option String
  attrs : List (String × String)
deriving Repr, DecidableEq

/-- A depth-2 descendant of a `programme` node. -/
structure XmlSub2 where
  tag : String
  text : Option String
  attrs : List (String × String)
deriving Repr, DecidableEq

/-- A depth-1 descendant of a `programme` node (`title`, `desc`, ...). -/
structure XmlSub1 where
  tag : String
  text : Option String
  attrs : List (String × String)
  subs : List XmlSub2
deriving Repr, DecidableEq

/-- A guide `programme` node.  The `channel` and `start` attributes, which the
reconciler reads, are distinguished fields; `start` carries the
`dateutil`-parsed timestamp as an integer number of hours; all other
attributes ride along verbatim in `attrs`. -/
structure XmlProgramme where
  channel : String
  start : Int
  attrs : List (String × String)
  subs : List XmlSub1
deriving Repr, DecidableEq

/-- A guide `channel` node from the source document (its `id` attribute may be
absent). -/
structure XmlChannel where
  id : Option String
  subs : List XmlSub
deriving Repr, DecidableEq

/-- A successfully parsed source guide document. -/
structure Guide where
  channels : List XmlChannel
  programmes : List XmlProgramme
deriving Repr, DecidableEq

/-- A channel node of the newly built output guide (its `id` is always set). -/
structure OutChannel where
  id : String
  subs : List XmlSub
deriving Repr, DecidableEq

/-- The newly built output guide: channel nodes first, then programme nodes,
in emission order. -/
structure OutGuide where
  channels : List OutChannel
  programmes : List XmlProgramme
deriving Repr, DecidableEq

/-- `is_in_range(args, timestamp)` with timestamps in hours: the closed window
`[now - range, now + range]`. -/
def is_in_range (args : Args) (now timestamp : Int) : Bool :=
  now - args.range ≤ timestamp && timestamp ≤ now + args.range

/-- `{e.tvg_id.lower(): e for e in m3u_entries}.values()`: keys keep
first-insertion order, later entries overwrite the held value. -/
def dedupeInsert (k : String) (e : M3uItem) :
    List (String × M3uItem) → List (String × M3uItem)
  | [] => [(k, e)]
  | (k0, v) :: rest => if k0 == k then (k0, e) :: rest else (k0, v) :: dedupeInsert k e rest

/-- The deduped entry list (`tvg_id_unique_entries`).  The Python key is
`e.tvg_id.lower()`, which presupposes a non-`None` identifier — evaluating the
comprehension with a `None` identifier is the uncaught `AttributeError`
handled separately in `create_new_epg`. -/
def tvgIdUnique (m3u_entries : List M3uItem) : List M3uItem :=
  (m3u_entries.foldl (fun d e => dedupeInsert (lowStr (e.tvg_id.getD "")) e d) []).map (·.2)

/-- `entry.tvg_id is None or entry.tvg_id == "" or entry.tvg_id == "None"`. -/
def missingId (e : M3uItem) : Bool :=
  e.tvg_id == none || e.tvg_id == some "" || e.tvg_id == some "None"

/-- Copy of a source channel's sub-elements: the channel-name transform is
applied to `display-name` text, and with `--http_for_images` non-`http` values
of `icon` attributes are blanked. -/
def newChannelSubs (args : Args) (rsub : Rsub) (subs : List XmlSub) : List XmlSub :=
  subs.map (fun el =>
    { tag := el.tag
      text :=
        if lowStr el.tag == "display-name" then
          el.text.map (fun t => transform_string_value rsub t none args.channel_transforms)
        else el.text
      attrs := el.attrs.map (fun kv =>
        (kv.1,
         if lowStr el.tag == "icon" && args.http_for_images then
           (if "http".data.isPrefixOf kv.2.data then kv.2 else "")
         else kv.2)) })

/-- Channel projection: every source channel node whose id is present,
non-empty, not yet emitted (exact-case duplicate guard) and case-insensitively
matched by some deduped entry's identifier is copied, with its id
case-normalised unless case preservation is configured. -/
def projectChannels (args : Args) (rsub : Rsub) (uniq : List M3uItem) :
    List XmlChannel → List String → List OutChannel
  | [], _ => []
  | ch :: rest, created =>
    match ch.id with
    | some cid =>
      if cid != "" && !(created.contains cid) &&
          uniq.any (fun x => lowStr (x.tvg_id.getD "") == lowStr cid) then
        { id := if !args.preserve_case then lowStr cid else cid
          subs := newChannelSubs args rsub ch.subs } ::
          projectChannels args rsub uniq rest (created ++ [cid])
      else projectChannels args rsub uniq rest created
    | none => projectChannels args rsub uniq rest created

/-- Synthetic channel nodes for identifier-less entries (only reachable for
`tvg_id == ""` or `"None"`, since a `None` identifier already aborted the
dedupe step), keyed by display name. -/
def synthChannels (m3u_entries : List M3uItem) : List OutChannel :=
  (m3u_entries.filter missingId).map (fun e =>
    { id := e.tvg_name.getD ""
      subs := [{ tag := "display-name", text := e.tvg_name, attrs := [] }] })

/-- The `xml_sort_type == 'm3u'` channel ordering: sort by the position of
each channel id (lowercased) in the deduped keyset; a channel id absent from
the keyset raises `ValueError` (`none`). -/
def m3uSortChannels (uniq : List M3uItem) (chans : List OutChannel) :
    Option (List OutChannel) :=
  let keys := uniq.map (fun x => lowStr (x.tvg_id.getD ""))
  if chans.all (fun ch => keys.contains (lowStr ch.id)) then
    some (chans.insertionSort (fun a b => keys.indexOf (lowStr a.id) ≤ keys.indexOf (lowStr b.id)))
  else none

/-- `create_channel_dictionary(epg_root)`: group the programme nodes by their
`channel` attribute, keys in first-appearance order, values in document
order. -/
def dictInsert (p : XmlProgramme) :
    List (String × List XmlProgramme) → List (String × List XmlProgramme)
  | [] => [(p.channel, [p])]
  | (k0, ps) :: rest =>
    if k0 == p.channel then (k0, ps ++ [p]) :: rest else (k0, ps) :: dictInsert p rest

/-- The channel dictionary over a programme list. -/
def create_channel_dictionary (progs : List XmlProgramme) :
    List (String × List XmlProgramme) :=
  progs.foldl (fun d p => dictInsert p d) []

/-- Programme projection over the deduped entries: for each entry with a
usable identifier, deep-copy every programme filed under the (case-ruled)
identifier whose start timestamp lies in the configured window. -/
def projectProgrammes (args : Args) (now : Int)
    (dict : List (String × List XmlProgramme)) : List M3uItem → List XmlProgramme
  | [] => []
  | e :: rest =>
    if e.tvg_id != none && e.tvg_id != some "" && e.tvg_id != some "None" then
      let key := if !args.preserve_case then lowStr (e.tvg_id.getD "") else e.tvg_id.getD ""
      match dict.lookup key with
      | some ps =>
        ps.filter (fun p => is_in_range args now p.start) ++ projectProgrammes args now dict rest
      | none => projectProgrammes args now dict rest
    else projectProgrammes args now dict rest

/-- Synthetic programme fallback: up to 167 two-hour blocks from `now`, each
subject to the window check, titled with the entry's display name. -/
def synthProgs (args : Args) (now : Int) (m3u_entries : List M3uItem) : List XmlProgramme :=
  (m3u_entries.filter missingId).flatMap (fun e =>
    (List.range 167).filterMap (fun i =>
      let start := now + 2 * (i : Int)
      if is_in_range args now start then
        some { channel := e.tvg_name.getD ""
               start := start
               attrs := [("stop", intStr (start + 2))]
               subs := [{ tag := "title", text := e.tvg_name, attrs := [], subs := [] },
                        { tag := "desc", text := e.tvg_name, attrs := [], subs := [] }] }
      else none))

/-- The channel nodes appended to the output root before any ordering:
projection of matching source channels followed by the synthetic fallback. -/
def guideChannels (args : Args) (rsub : Rsub) (g : Guide) (m3u_entries : List M3uItem) :
    List OutChannel :=
  projectChannels args rsub (tvgIdUnique m3u_entries) g.channels [] ++
    (if args.no_tvg_id && args.force_epg then synthChannels m3u_entries else [])

/-- The optional channel reordering (`xml_sort_type`), skipped entirely when
no channel was emitted; `none` is the `'m3u'`-sort `ValueError`. -/
def orderChannels (args : Args) (uniq : List M3uItem) (chans : List OutChannel) :
    Option (List OutChannel) :=
  if chans.length > 0 then
    if args.xml_sort_type == "alpha" then some (chans.insertionSort (fun a b => a.id ≤ b.id))
    else if args.xml_sort_type == "m3u" then m3uSortChannels uniq chans
    else some chans
  else some chans

/-- The source programme nodes after the channel-attribute lowercase pass
(performed only when channels were emitted and case preservation is off). -/
def guideProgs2 (args : Args) (g : Guide) (chanCount : Nat) : List XmlProgramme :=
  if chanCount > 0 && g.programmes.length > 0 && !args.preserve_case then
    g.programmes.map (fun p => { p with channel := lowStr p.channel })
  else g.programmes

/-- The programme nodes appended to the output root: windowed projection per
deduped entry, then the synthetic fallback. -/
def guideProgrammes (args : Args) (g : Guide) (m3u_entries : List M3uItem) (now : Int)
    (chanCount : Nat) : List XmlProgramme :=
  projectProgrammes args now (create_channel_dictionary (guideProgs2 args g chanCount))
      (tvgIdUnique m3u_entries) ++
    (if args.no_tvg_id && args.force_epg then synthProgs args now m3u_entries else [])

/-- Everything inside the `try` block of `create_new_epg` after a successful
parse: channel projection, synthetic channels, optional channel ordering, the
programme channel-attribute lowercase pass, the channel dictionary, programme
projection and the synthetic programme fallback.  `none` models an exception
caught by the blanket `except` (the `'m3u'`-sort `ValueError`). -/
def createBody (args : Args) (rsub : Rsub) (g : Guide) (m3u_entries : List M3uItem)
    (now : Int) : Option OutGuide :=
  match orderChannels args (tvgIdUnique m3u_entries) (guideChannels args rsub g m3u_entries) with
  | none => none
  | some sorted =>
    some { channels := sorted
           programmes := guideProgrammes args g m3u_entries now
             (guideChannels args rsub g m3u_entries).length }

/-- `create_new_epg(args, original_epg_filename, m3u_entries)`.  The dedupe
keyset comprehension runs before the `try` block, so a `None` identifier
raises an uncaught `AttributeError` (`Except.error`); inside the `try`, a
guide that fails to parse or has no root (`src = none`) yields the no-result
value, as does any caught exception. -/
def create_new_epg (args : Args) (rsub : Rsub) (src : Option Guide)
    (m3u_entries : List M3uItem) (now : Int) : Except Unit (Option OutGuide) :=
  if m3u_entries.any (fun e => e.tvg_id.isNone) then Except.error ()
  else Except.ok (src.bind (fun g => createBody args rsub g m3u_entries now))

/-! ### Claim C3: the Matcher -/

/-- C3: for every candidate string and rule list, the Matcher returns true if
and only if the candidate appears verbatim (case-sensitive membership) in the
rule list or some rule, treated as a case-insensitive regular expression
(the abstract `rx`), matches the candidate; the empty rule list matches
nothing. -/
theorem C3_matcher_exact_then_regex (rx : Rx) (item_list : List String) (item_name : String) :
    is_item_matched rx item_list item_name =
      (item_list.contains item_name || item_list.any (fun r => rx r item_name)) ∧
    (item_list = [] → is_item_matched rx item_list item_name = false) := by
  constructor
  · unfold is_item_matched
    cases item_list with
    | nil => simp
    | cons a as =>
      simp only [List.length_cons, gt_iff_lt, Nat.succ_pos, if_true]
      cases h : (a :: as).contains item_name <;> simp
  · rintro rfl
    rfl

/-- Witness for C3 at a concrete matcher, rule list and candidate. -/
theorem C3_matcher_exact_then_regex_witness :
    is_item_matched (fun p c => lowStr c == lowStr p) ["bbc"] "BBC" =
      (["bbc"].contains "BBC" || ["bbc"].any (fun r => lowStr "BBC" == lowStr r)) ∧
    (["bbc"] = ([] : List String) →
      is_item_matched (fun p c => lowStr c == lowStr p) ["bbc"] "BBC" = false) :=
  C3_matcher_exact_then_regex (fun p c => lowStr c == lowStr p) ["bbc"] "BBC"

/-! ### Claim C4: the Transform Engine -/

/-- The per-rule behaviour exactly as the claim words it: replace the whole
value when a compare value was supplied *and* equals the source key; `else` —
covering both a missing compare value and an unequal one — substring-replace
when the source key occurs in the value; otherwise regex-substitute. -/
def claimTransformStep (rsub : Rsub) (v : String) (cmp : Option String)
    (rule : String × String) : String :=
  if cmp == some rule.1 then rule.2
  else if pyContainsS v rule.1 then pyReplaceS v rule.1 rule.2
  else rsub rule.1 rule.2 v

/-- The per-rule behaviour as the code implements it: with a compare value
supplied, an unequal source key leaves the value entirely untouched (no
substring or regex fallback). -/
def codeTransformStep (rsub : Rsub) (v : String) (cmp : Option String)
    (rule : String × String) : String :=
  match cmp with
  | some cv => if cv == rule.1 then rule.2 else v
  | none =>
    if pyContainsS v rule.1 then pyReplaceS v rule.1 rule.2
    else rsub rule.1 rule.2 v

/-- C4 counterexample: the Transform Engine does not implement the claim's
else-chain.  With a compare value supplied that differs from the source key,
the code leaves the value untouched even though the source key occurs as a
literal substring, while the claim's chain would replace it. -/
theorem C4_counterexample :
    ¬ (∀ (rsub : Rsub) (v : String) (cmp : Option String) (ts : List (String × String)),
        transform_string_value rsub v cmp ts =
          ts.foldl (fun v r => claimTransformStep rsub v cmp r) v) := by
  intro h
  have h2 := h (fun _ _ s => s) "abc" (some "X") [("b", "Z")]
  revert h2
  decide

/-- C4 amended: the Transform Engine applies the rules cumulatively in order
(the output of each rule feeding the next), where each rule replaces the whole
value when the supplied compare value equals the source key and otherwise —
*only when no compare value was supplied* — falls through to literal-substring
replacement and then regex substitution; with a compare value supplied and
unequal to the source key the value passes through unchanged. -/
theorem C4_transform_folds_code_step (rsub : Rsub) (v : String) (cmp : Option String)
    (ts : List (String × String)) :
    transform_string_value rsub v cmp ts =
      ts.foldl (fun v r => codeTransformStep rsub v cmp r) v := by
  induction ts generalizing v with
  | nil => rfl
  | cons r rest ih =>
    obtain ⟨src, rep⟩ := r
    cases cmp with
    | none =>
      simp only [transform_string_value, List.foldl_cons, codeTransformStep]
      exact ih _
    | some cv =>
      simp only [transform_string_value, List.foldl_cons, codeTransformStep]
      exact ih _

/-! ### Claim C1: the Filter Pipeline -/

/-- The claim's survival formula: `groupIncluded` is the Matcher result on the
entry's group in keep mode and its negation in discard mode; discard lists for
name and url; `alwaysKept` from either include-override list. -/
def surviveClaim (args : Args) (rx : Rx) (e : M3uItem) : Bool :=
  let groupMatched := is_item_matched rx args.groups (e.group_title.getD "")
  let groupIncluded := if args.groupmode == "keep" then groupMatched else !groupMatched
  let channelDiscarded := is_item_matched rx args.discard_channels (e.tvg_name.getD "")
  let urlDiscarded := is_item_matched rx args.discard_urls (e.url.getD "")
  let alwaysKept := is_item_matched rx args.include_channels (e.tvg_name.getD "") ||
    is_item_matched rx args.include_urls (e.url.getD "")
  (groupIncluded && !channelDiscarded && !urlDiscarded) || alwaysKept

theorem filterLoop_eq_filter_map (args : Args) (rx : Rx) (rsub : Rsub) (l : List M3uItem) :
    filterLoop args rx rsub l =
      (l.filter (surviveCode args rx)).map (transformEntry args rsub) := by
  induction l with
  | nil => rfl
  | cons e rest ih =>
    simp only [filterLoop, List.filter_cons]
    cases h : surviveCode args rx e <;> simp [h, ih]

theorem surviveCode_eq_surviveClaim (args : Args) (rx : Rx) (e : M3uItem)
    (hmode : args.groupmode = "keep" ∨ args.groupmode = "discard") :
    surviveCode args rx e = surviveClaim args rx e := by
  rcases hmode with h | h <;>
    simp [surviveCode, surviveClaim, h]

/-- C1: an entry survives the Filter Pipeline if and only if
`(groupIncluded && !channelDiscarded && !urlDiscarded) || alwaysKept` — the
pipeline output is exactly the (pre-sorted) input filtered by that formula and
transformed; in particular any entry whose URL matches the URL
include-override list survives, even when its group is excluded. -/
theorem C1_filter_survival (args : Args) (rx : Rx) (rsub : Rsub)
    (m3u_entries : List M3uItem)
    (hmode : args.groupmode = "keep" ∨ args.groupmode = "discard") :
    filter_m3u_entries args rx rsub m3u_entries =
      (((if !args.no_sort then sortByName m3u_entries else m3u_entries).filter
        (surviveClaim args rx)).map (transformEntry args rsub)) ∧
    (∀ e : M3uItem, is_item_matched rx args.include_urls (e.url.getD "") = true →
      surviveClaim args rx e = true) := by
  constructor
  · unfold filter_m3u_entries
    by_cases hlen : m3u_entries.length > 0
    · rw [if_pos hlen, filterLoop_eq_filter_map]
      congr 1
      apply List.filter_congr
      intro e _
      exact surviveCode_eq_surviveClaim args rx e hmode
    · have : m3u_entries = [] := by
        cases m3u_entries with
        | nil => rfl
        | cons a b => simp at hlen
      subst this
      simp [sortByName]
  · intro e hurl
    simp only [surviveClaim, hurl, Bool.or_true]

/-! ### Concrete fixtures used by witnesses and counterexamples -/

/-- A regex collaborator that never matches. -/
def rxNever : Rx := fun _ _ => false

/-- A substitution collaborator that leaves the value unchanged (no pattern
effect). -/
def rsubId : Rsub := fun _ _ s => s

def cArgsKeep : Args :=
  { groupmode := "keep", groups := ["News"], include_urls := ["http://keep/1"] }

def cEntNews : M3uItem :=
  { tvg_name := some "N1", group_title := some "News", name := some "N1",
    url := some "http://u/1" }

def cEntSportKept : M3uItem :=
  { tvg_name := some "S1", group_title := some "Sport", name := some "S1",
    url := some "http://keep/1" }

/-- Witness for C1: concrete keep-mode rule set; the second entry's group is
excluded but its URL is in the include-override list. -/
theorem C1_filter_survival_witness :
    (cArgsKeep.groupmode = "keep" ∨ cArgsKeep.groupmode = "discard") ∧
    (filter_m3u_entries cArgsKeep rxNever rsubId [cEntNews, cEntSportKept] =
      (((if !cArgsKeep.no_sort then sortByName [cEntNews, cEntSportKept]
          else [cEntNews, cEntSportKept]).filter
        (surviveClaim cArgsKeep rxNever)).map (transformEntry cArgsKeep rsubId)) ∧
    (∀ e : M3uItem, is_item_matched rxNever cArgsKeep.include_urls (e.url.getD "") = true →
      surviveClaim cArgsKeep rxNever e = true)) :=
  ⟨Or.inl rfl,
   C1_filter_survival cArgsKeep rxNever rsubId [cEntNews, cEntSportKept] (Or.inl rfl)⟩

/-! ### Claim C5: tvh-chnum numbering with a configured offset -/

/-- The records `save_new_m3u` writes when pairing the entries with a given
counter-value sequence. -/
def recordsWith (args : Args) (es : List M3uItem) (ns : List Int) : List (String × String) :=
  List.zipWith (fun e n => (metaLineOf args e (some n), pyStr e.url)) es ns

theorem saveLoop_eq_tvhNums (args : Args) (hoff : 0 < args.tvh_offset)
    (es : List M3uItem) :
    ∀ (idx : Int) (gt : Option String),
      saveLoop args idx gt es =
        (tvhNums args.tvh_offset idx gt (es.map (fun e => e.group_title))).map
          (recordsWith args es) := by
  induction es with
  | nil => intro idx gt; rfl
  | cons e rest ih =>
    intro idx gt
    have hoff2 : args.tvh_offset > 0 := hoff
    have hnum : (decide (args.tvh_start > 0) || decide (args.tvh_offset > 0)) = true := by
      simp [hoff2]
    have hne : (args.tvh_offset == 0) = false := by
      simp only [beq_eq_false_iff_ne, ne_eq]
      omega
    simp only [saveLoop, tvhNums, List.map_cons]
    rw [if_pos hnum]
    by_cases hg : (e.group_title == gt) = true
    · rw [if_pos hg, if_pos hg, ih]
      cases tvhNums args.tvh_offset (idx + 1) gt (rest.map (fun e => e.group_title)) with
      | none => rfl
      | some ns => rfl
    · rw [if_neg hg, if_neg hg, hne]
      simp only [Bool.false_eq_true, if_false]
      rw [ih]
      cases tvhNums args.tvh_offset (args.tvh_offset * (Int.fdiv idx args.tvh_offset + 1) + 1)
          e.group_title (rest.map (fun e => e.group_title)) with
      | none => rfl
      | some ns => rfl

/-- C5: with a per-group offset greater than 0 configured, the running counter
increments by 1 for each consecutive same-group entry and at each group
boundary is first set to `offset * (counter // offset + 1)` and then
incremented; the serializer emits exactly these counter values as the
`tvh-chnum` of each record; and concretely, with start value 1 and offset 10
configured on the command line, two group-A entries followed by three group-B
entries receive the channel numbers 1, 2, 11, 12, 13. -/
theorem C5_tvh_numbering (args : Args) (hoff : 0 < args.tvh_offset) :
    (∀ (idx : Int) (gt gr : Option String) (rest : List (Option String)),
      tvhNums args.tvh_offset idx gt (gr :: rest) =
        if gr = gt then (tvhNums args.tvh_offset (idx + 1) gt rest).map ((idx + 1) :: ·)
        else
          (tvhNums args.tvh_offset (args.tvh_offset * (Int.fdiv idx args.tvh_offset + 1) + 1)
            gr rest).map
            ((args.tvh_offset * (Int.fdiv idx args.tvh_offset + 1) + 1) :: ·)) ∧
    (∀ (m3u_entries : List M3uItem) (idx : Int) (gt : Option String),
      saveLoop args idx gt m3u_entries =
        (tvhNums args.tvh_offset idx gt (m3u_entries.map (fun e => e.group_title))).map
          (recordsWith args m3u_entries)) ∧
    tvhNums (cliTvhOffset (some 10)) (cliTvhStart (some 1)) (some "A")
        [some "A", some "A", some "B", some "B", some "B"] = some [1, 2, 11, 12, 13] := by
  refine ⟨?_, fun es idx gt => saveLoop_eq_tvhNums args hoff es idx gt, by decide⟩
  intro idx gt gr rest
  have hne : (args.tvh_offset == 0) = false := by
    simp only [beq_eq_false_iff_ne, ne_eq]
    omega
  by_cases hg : gr = gt
  · simp [tvhNums, hg]
  · simp [tvhNums, hg, hne]

def cArgsNum : Args := { tvh_start := cliTvhStart (some 1), tvh_offset := cliTvhOffset (some 10) }

/-- Witness for C5 at the concrete CLI configuration start=1, offset=10. -/
theorem C5_tvh_numbering_witness :
    (0 : Int) < cArgsNum.tvh_offset ∧
    ((∀ (idx : Int) (gt gr : Option String) (rest : List (Option String)),
      tvhNums cArgsNum.tvh_offset idx gt (gr :: rest) =
        if gr = gt then (tvhNums cArgsNum.tvh_offset (idx + 1) gt rest).map ((idx + 1) :: ·)
        else
          (tvhNums cArgsNum.tvh_offset
            (cArgsNum.tvh_offset * (Int.fdiv idx cArgsNum.tvh_offset + 1) + 1) gr rest).map
            ((cArgsNum.tvh_offset * (Int.fdiv idx cArgsNum.tvh_offset + 1) + 1) :: ·)) ∧
    (∀ (m3u_entries : List M3uItem) (idx : Int) (gt : Option String),
      saveLoop cArgsNum idx gt m3u_entries =
        (tvhNums cArgsNum.tvh_offset idx gt (m3u_entries.map (fun e => e.group_title))).map
          (recordsWith cArgsNum m3u_entries)) ∧
    tvhNums (cliTvhOffset (some 10)) (cliTvhStart (some 1)) (some "A")
        [some "A", some "A", some "B", some "B", some "B"] = some [1, 2, 11, 12, 13]) :=
  ⟨by decide, C5_tvh_numbering cArgsNum (by decide)⟩

/-! ### Claim C6: numbering with no offset configured -/

def cArgsSeq : Args := { tvh_start := cliTvhStart (some 2), tvh_offset := cliTvhOffset none }

def cEntA1 : M3uItem :=
  { tvg_name := some "a1", group_title := some "A", name := some "a1", url := some "u1" }

def cEntA2 : M3uItem :=
  { tvg_name := some "a2", group_title := some "A", name := some "a2", url := some "u2" }

def cEntB1 : M3uItem :=
  { tvg_name := some "b1", group_title := some "B", name := some "b1", url := some "u3" }

/-- C6 evaluated at the failing input: with numbering requested via a
non-default start value (CLI start 2) and no offset configured (offset 0), a
single-group sequence is numbered sequentially, but any sequence containing a
group boundary hits `floor = (idx // args.tvh_offset)` with a zero divisor —
`save_new_m3u` dies with `ZeroDivisionError` (modelled `none`) instead of
emitting sequential numbers. -/
theorem C6_offset_zero_boundary_divzero :
    ((save_new_m3u cArgsSeq [cEntA1, cEntA2]).map
        (fun rs => rs.map (fun r => searchAttr "tvh-chnum".data r.1.data)) =
      some [some ['2'], some ['3']]) ∧
    save_new_m3u cArgsSeq [cEntA1, cEntB1] = none := by
  constructor
  · rfl
  · rfl

/-! ### The Order Engine: rank-assignment lemmas (claims C2 and C8) -/

/-- What the group-rank pass does to one entry (the pass is a per-entry map;
see `groupRankPass_eq_map`). -/
def groupStamp : Nat → List String → M3uItem → M3uItem
  | _, [], e => e
  | i, gt :: rest, e =>
    groupStamp (i + 1) rest (if e.group_title == some gt then { e with group_idx := i + 1 } else e)

theorem groupRankPass_eq_map (gs : List String) :
    ∀ (i : Nat) (es : List M3uItem), groupRankPass i gs es = es.map (groupStamp i gs) := by
  induction gs with
  | nil =>
    intro i es
    simp [groupRankPass, groupStamp]
  | cons g rest ih =>
    intro i es
    simp only [groupRankPass]
    rw [ih, List.map_map]
    rfl

theorem groupStamp_group_title (gs : List String) :
    ∀ (i : Nat) (e : M3uItem), (groupStamp i gs e).group_title = e.group_title := by
  induction gs with
  | nil => intro i e; rfl
  | cons g rest ih =>
    intro i e
    simp only [groupStamp]
    rw [ih]
    by_cases h : (e.group_title == some g) = true <;> simp [h]

theorem groupStamp_tvg_name (gs : List String) :
    ∀ (i : Nat) (e : M3uItem), (groupStamp i gs e).tvg_name = e.tvg_name := by
  induction gs with
  | nil => intro i e; rfl
  | cons g rest ih =>
    intro i e
    simp only [groupStamp]
    rw [ih]
    by_cases h : (e.group_title == some g) = true <;> simp [h]

theorem groupStamp_channel_idx (gs : List String) :
    ∀ (i : Nat) (e : M3uItem), (groupStamp i gs e).channel_idx = e.channel_idx := by
  induction gs with
  | nil => intro i e; rfl
  | cons g rest ih =>
    intro i e
    simp only [groupStamp]
    rw [ih]
    by_cases h : (e.group_title == some g) = true <;> simp [h]

theorem groupStamp_notmem (gs : List String) :
    ∀ (i : Nat) (e : M3uItem), (∀ gt ∈ gs, e.group_title ≠ some gt) →
      groupStamp i gs e = e := by
  induction gs with
  | nil => intro i e _; rfl
  | cons g rest ih =>
    intro i e hmem
    have hg : ¬ ((e.group_title == some g) = true) := by
      simp only [beq_iff_eq]
      exact hmem g (List.mem_cons_self g rest)
    simp only [groupStamp, if_neg hg]
    exact ih (i + 1) e (fun gt hgt => hmem gt (List.mem_cons_of_mem g hgt))

theorem groupStamp_rank (gs : List String) (hnodup : gs.Nodup) :
    ∀ (n : Nat) (gt : String), gs.get? n = some gt →
    ∀ (i : Nat) (e : M3uItem), e.group_title = some gt →
      (groupStamp i gs e).group_idx = i + n + 1 := by
  induction gs with
  | nil => intro n gt hget; simp at hget
  | cons g rest ih =>
    intro n gt hget i e htitle
    cases n with
    | zero =>
      simp only [List.get?] at hget
      injection hget with hgt
      subst hgt
      have hg : (e.group_title == some g) = true := by
        simp [htitle]
      simp only [groupStamp, if_pos hg]
      have hnot : ∀ gt2 ∈ rest, ({ e with group_idx := i + 1 } : M3uItem).group_title ≠ some gt2 := by
        intro gt2 hgt2 hcontra
        simp only [htitle, Option.some.injEq] at hcontra
        subst hcontra
        exact (List.nodup_cons.mp hnodup).1 hgt2
      rw [groupStamp_notmem rest (i + 1) _ hnot]
    | succ m =>
      simp only [List.get?] at hget
      have hmem : gt ∈ rest := List.get?_mem hget
      have hne : g ≠ gt := by
        intro hcontra
        subst hcontra
        exact (List.nodup_cons.mp hnodup).1 hmem
      have hg : ¬ ((e.group_title == some g) = true) := by
        simp only [htitle, beq_iff_eq, Option.some.injEq]
        exact fun hcontra => hne hcontra.symm
      simp only [groupStamp, if_neg hg]
      have := ih (List.nodup_cons.mp hnodup).2 m gt hget (i + 1) e htitle
      omega

/-- Does a display name match a configured sort channel, case-insensitively
(`x.tvg_name.lower() == sort_channel.lower()`)? -/
def nameMatches (sc : String) (nm : Option String) : Bool :=
  lowStr (nm.getD "") == lowStr sc

/-- Index of the first display name matching `sc` (the `next(...)`
generator). -/
def firstMatchIdxN (sc : String) : List (Option String) → Option Nat
  | [] => none
  | nm :: rest =>
    if nameMatches sc nm then some 0 else (firstMatchIdxN sc rest).map (· + 1)

/-- First matching entry position in an entry list. -/
def firstMatchIdx (sc : String) (es : List M3uItem) : Option Nat :=
  firstMatchIdxN sc (es.map (fun e => e.tvg_name))

theorem firstMatchIdxN_spec (sc : String) :
    ∀ (names : List (Option String)) (k : Nat), firstMatchIdxN sc names = some k →
      ∃ nm, names.get? k = some nm ∧ nameMatches sc nm = true := by
  intro names
  induction names with
  | nil => intro k h; simp [firstMatchIdxN] at h
  | cons nm rest ih =>
    intro k h
    simp only [firstMatchIdxN] at h
    by_cases hm : nameMatches sc nm = true
    · rw [if_pos hm] at h
      injection h with h0
      subst h0
      exact ⟨nm, rfl, hm⟩
    · rw [if_neg hm] at h
      cases hr : firstMatchIdxN sc rest with
      | none => rw [hr] at h; simp at h
      | some m =>
        rw [hr] at h
        simp only [Option.map_some'] at h
        injection h with h1
        subst h1
        obtain ⟨nm2, hget, hmat⟩ := ih m hr
        exact ⟨nm2, hget, hmat⟩

theorem nameMatches_lower_eq {sc sc2 : String} {nm : Option String}
    (h1 : nameMatches sc nm = true) (h2 : nameMatches sc2 nm = true) :
    lowStr sc = lowStr sc2 := by
  simp only [nameMatches, beq_iff_eq] at h1 h2
  rw [← h1, ← h2]

theorem assignFirstChannel_get? (sc : String) (i : Nat) :
    ∀ (es : List M3uItem) (k : Nat),
      (assignFirstChannel sc i es).get? k =
        if firstMatchIdx sc es = some k then
          (es.get? k).map (fun e => { e with channel_idx := i })
        else es.get? k := by
  intro es
  induction es with
  | nil =>
    intro k
    simp [assignFirstChannel, firstMatchIdx, firstMatchIdxN]
  | cons e rest ih =>
    intro k
    simp only [assignFirstChannel, firstMatchIdx, List.map_cons, firstMatchIdxN, nameMatches]
    by_cases hvc : (lowStr (e.tvg_name.getD "") == lowStr sc) = true
    · simp only [hvc, if_true]
      cases k with
      | zero => simp
      | succ m => simp
    · have hf : (lowStr (e.tvg_name.getD "") == lowStr sc) = false := by
        simpa using hvc
      simp only [hf, Bool.false_eq_true, if_false]
      cases k with
      | zero =>
        cases hf2 : firstMatchIdxN sc (rest.map (fun e => e.tvg_name)) with
        | none => simp
        | some n => simp
      | succ m =>
        have hih2 := ih m
        simp only [firstMatchIdx] at hih2
        simp only [List.get?_cons_succ]
        rw [hih2]
        by_cases h1 : firstMatchIdxN sc (rest.map (fun e => e.tvg_name)) = some m
        · rw [if_pos h1, h1]
          simp
        · rw [if_neg h1]
          have h2 : ¬ (Option.map (fun x => x + 1)
              (firstMatchIdxN sc (rest.map (fun e => e.tvg_name))) = some (m + 1)) := by
            rw [Option.map_eq_some']
            rintro ⟨a, ha, hb⟩
            have haa : a = m := by omega
            exact h1 (haa ▸ ha)
          rw [if_neg h2]

theorem assignFirstChannel_names (sc : String) (i : Nat) :
    ∀ (es : List M3uItem),
      (assignFirstChannel sc i es).map (fun e => e.tvg_name) =
        es.map (fun e => e.tvg_name) := by
  intro es
  induction es with
  | nil => rfl
  | cons e rest ih =>
    simp only [assignFirstChannel]
    by_cases hm : (lowStr (e.tvg_name.getD "") == lowStr sc) = true
    · rw [if_pos hm]
      simp
    · rw [if_neg hm]
      simp only [List.map_cons, ih]

/-- The channel rank that the whole channel-rank pass assigns to position `k`
(offset from the pass's starting index): the position of the first configured
channel whose first playlist match is `k`. -/
def assignedRank (names : List (Option String)) (k : Nat) : List String → Option Nat
  | [] => none
  | sc :: rest =>
    if firstMatchIdxN sc names = some k then some 0 else (assignedRank names k rest).map (· + 1)

theorem assignedRank_spec (names : List (Option String)) (k : Nat) :
    ∀ (cs : List String) (n : Nat), assignedRank names k cs = some n →
      ∃ sc, cs.get? n = some sc ∧ firstMatchIdxN sc names = some k := by
  intro cs
  induction cs with
  | nil => intro n h; simp [assignedRank] at h
  | cons sc rest ih =>
    intro n h
    simp only [assignedRank] at h
    by_cases h0 : firstMatchIdxN sc names = some k
    · rw [if_pos h0] at h
      injection h with h1
      subst h1
      exact ⟨sc, rfl, h0⟩
    · rw [if_neg h0] at h
      cases hr : assignedRank names k rest with
      | none => rw [hr] at h; simp at h
      | some m =>
        rw [hr] at h
        simp only [Option.map_some'] at h
        injection h with h1
        subst h1
        obtain ⟨sc2, hget, hfm⟩ := ih m hr
        exact ⟨sc2, hget, hfm⟩

theorem channelRankPass_get? :
    ∀ (cs : List String), cs.Pairwise (fun a b => lowStr a ≠ lowStr b) →
    ∀ (i : Nat) (es : List M3uItem) (k : Nat),
      (channelRankPass i cs es).get? k =
        match assignedRank (es.map (fun e => e.tvg_name)) k cs with
        | some n => (es.get? k).map (fun e => { e with channel_idx := i + n })
        | none => es.get? k := by
  intro cs
  induction cs with
  | nil =>
    intro _ i es k
    simp [channelRankPass, assignedRank]
  | cons sc rest ih =>
    intro hdist i es k
    have hd1 : ∀ b ∈ rest, lowStr sc ≠ lowStr b := (List.pairwise_cons.mp hdist).1
    have hd2 : rest.Pairwise (fun a b => lowStr a ≠ lowStr b) := (List.pairwise_cons.mp hdist).2
    simp only [channelRankPass]
    rw [ih hd2 (i + 1) (assignFirstChannel sc i es) k,
        assignFirstChannel_names sc i es]
    simp only [assignedRank]
    by_cases h0 : firstMatchIdxN sc (es.map (fun e => e.tvg_name)) = some k
    · rw [if_pos h0]
      have hnone : assignedRank (es.map (fun e => e.tvg_name)) k rest = none := by
        cases hr : assignedRank (es.map (fun e => e.tvg_name)) k rest with
        | none => rfl
        | some m =>
          exfalso
          obtain ⟨sc2, hget2, hfm2⟩ := assignedRank_spec _ k rest m hr
          obtain ⟨nm1, hga, hmat1⟩ := firstMatchIdxN_spec sc _ k h0
          obtain ⟨nm2, hgb, hmat2⟩ := firstMatchIdxN_spec sc2 _ k hfm2
          rw [hga] at hgb
          have hnm : nm1 = nm2 := Option.some.inj hgb
          subst hnm
          exact hd1 sc2 (List.get?_mem hget2) (nameMatches_lower_eq hmat1 hmat2)
      rw [hnone]
      rw [assignFirstChannel_get? sc i es k]
      have hcond : firstMatchIdx sc es = some k := h0
      rw [if_pos hcond]
      simp
    · rw [if_neg h0]
      have hcond : ¬ (firstMatchIdx sc es = some k) := h0
      cases hr : assignedRank (es.map (fun e => e.tvg_name)) k rest with
      | none =>
        simp only [Option.map_none']
        rw [assignFirstChannel_get? sc i es k, if_neg hcond]
      | some n =>
        simp only [Option.map_some']
        rw [assignFirstChannel_get? sc i es k, if_neg hcond]
        have harith : i + 1 + n = i + (n + 1) := by omega
        rw [harith]

theorem channelRankPass_core (cs : List String) :
    ∀ (i : Nat) (es : List M3uItem) (k : Nat),
      ((channelRankPass i cs es).get? k).map (fun e => { e with channel_idx := 0 }) =
        (es.get? k).map (fun e => { e with channel_idx := 0 }) := by
  induction cs with
  | nil => intro i es k; rfl
  | cons sc rest ih =>
    intro i es k
    simp only [channelRankPass]
    rw [ih (i + 1) _ k, assignFirstChannel_get? sc i es k]
    by_cases h : firstMatchIdx sc es = some k
    · rw [if_pos h]
      cases es.get? k with
      | none => rfl
      | some x => rfl
    · rw [if_neg h]

theorem assignedRank_of_first :
    ∀ (cs : List String), cs.Pairwise (fun a b => lowStr a ≠ lowStr b) →
    ∀ (names : List (Option String)) (n : Nat) (sc : String) (k : Nat),
      cs.get? n = some sc → firstMatchIdxN sc names = some k →
      assignedRank names k cs = some n := by
  intro cs
  induction cs with
  | nil => intro _ names n sc k hget; simp at hget
  | cons sc0 rest ih =>
    intro hdist names n sc k hget hfm
    have hd1 : ∀ b ∈ rest, lowStr sc0 ≠ lowStr b := (List.pairwise_cons.mp hdist).1
    have hd2 : rest.Pairwise (fun a b => lowStr a ≠ lowStr b) := (List.pairwise_cons.mp hdist).2
    cases n with
    | zero =>
      simp only [List.get?] at hget
      injection hget with hs
      subst hs
      simp only [assignedRank, if_pos hfm]
    | succ m =>
      simp only [List.get?] at hget
      have hcond : ¬ (firstMatchIdxN sc0 names = some k) := by
        intro h0
        obtain ⟨nm1, hga, hmat1⟩ := firstMatchIdxN_spec sc0 names k h0
        obtain ⟨nm2, hgb, hmat2⟩ := firstMatchIdxN_spec sc names k hfm
        rw [hga] at hgb
        have hnm : nm1 = nm2 := Option.some.inj hgb
        subst hnm
        exact hd1 sc (List.get?_mem hget) (nameMatches_lower_eq hmat1 hmat2)
      simp only [assignedRank, if_neg hcond]
      rw [ih hd2 names m sc k hget hfm]
      rfl

theorem groupRankPass_names (gs : List String) (i : Nat) (es : List M3uItem) :
    (groupRankPass i gs es).map (fun e => e.tvg_name) = es.map (fun e => e.tvg_name) := by
  rw [groupRankPass_eq_map, List.map_map]
  induction es with
  | nil => rfl
  | cons e rest ih =>
    simp only [List.map_cons, Function.comp_apply, groupStamp_tvg_name]
    rw [ih]

instance : IsTotal M3uItem rankLe :=
  ⟨fun a b => by unfold rankLe; omega⟩

instance : IsTrans M3uItem rankLe :=
  ⟨fun a b c hab hbc => by unfold rankLe at hab hbc ⊢; omega⟩

/-- Every entry of the rank-assigned list agrees with some input entry on
everything except possibly `channel_idx`, with the group stamp applied. -/
theorem rankedEntry_exists (args : Args) (entries : List M3uItem) (e : M3uItem)
    (he : e ∈ channelRankPass 0 args.sortchannels (groupRankPass 0 args.group_idx entries)) :
    ∃ e0 ∈ entries, e.group_idx = (groupStamp 0 args.group_idx e0).group_idx ∧
      e.group_title = e0.group_title ∧ e.tvg_name = e0.tvg_name := by
  obtain ⟨k, hk⟩ := List.mem_iff_get?.mp he
  have hcore := channelRankPass_core args.sortchannels 0 (groupRankPass 0 args.group_idx entries) k
  rw [hk, groupRankPass_eq_map, List.get?_map] at hcore
  cases hek : entries.get? k with
  | none =>
    rw [hek] at hcore
    simp at hcore
  | some e0 =>
    rw [hek] at hcore
    simp only [Option.map_some'] at hcore
    have hcoreeq : ({ e with channel_idx := 0 } : M3uItem) =
        { groupStamp 0 args.group_idx e0 with channel_idx := 0 } := Option.some.inj hcore
    refine ⟨e0, List.get?_mem hek, ?_, ?_, ?_⟩
    · have h1 := congrArg (fun x : M3uItem => x.group_idx) hcoreeq
      exact h1
    · have h2 := congrArg (fun x : M3uItem => x.group_title) hcoreeq
      exact h2.trans (groupStamp_group_title args.group_idx 0 e0)
    · have h3 := congrArg (fun x : M3uItem => x.tvg_name) hcoreeq
      exact h3.trans (groupStamp_tvg_name args.group_idx 0 e0)

/-! ### Claim C2: group ranking and ordering of unconfigured groups -/

def cArgsC2 : Args := { group_idx := ["Sport"], sortchannels := ["x"] }

def cEntNews2 : M3uItem :=
  { tvg_name := some "a", group_title := some "News", name := some "a", url := some "u" }

def cEntSport2 : M3uItem :=
  { tvg_name := some "b", group_title := some "Sport", name := some "b", url := some "u" }

/-- C2 counterexample: with configured groups `["Sport"]` and an explicit
channel order (so the final sort uses the rank key), the entry in the
unconfigured group `News` keeps the default rank 0 and sorts *first* — at
position 0, before the `Sport` entry at position 1 — refuting "always sorts
last, i.e. after every entry whose group is configured". -/
theorem C2_counterexample :
    ¬ (∀ (p q : Nat) (ep eq2 : M3uItem),
        (sort_m3u_entries cArgsC2 [cEntNews2, cEntSport2]).get? p = some ep →
        (sort_m3u_entries cArgsC2 [cEntNews2, cEntSport2]).get? q = some eq2 →
        (∀ gt ∈ cArgsC2.group_idx, ep.group_title ≠ some gt) →
        (∃ gt ∈ cArgsC2.group_idx, eq2.group_title = some gt) → q < p) := by
  intro h
  have h2 := h 0 1 cEntNews2 { cEntSport2 with group_idx := 1 }
    (by decide) (by decide) (by decide) ⟨"Sport", by decide, by decide⟩
  omega

/-- C2 amended: the Order Engine assigns group-rank N (1-based) to every entry
whose group equals the Nth configured group (configured groups pairwise
distinct); entries whose group appears nowhere in the configured list retain
the default rank 0, and when an explicit channel order is configured they
always sort *first* — before every entry whose group is configured — in the
final sorted sequence. -/
theorem C2_group_rank_order (args : Args) (entries : List M3uItem)
    (hnodup : args.group_idx.Nodup)
    (hdef : ∀ e ∈ entries, e.group_idx = 0)
    (hsc : args.sortchannels ≠ []) :
    (∀ e ∈ sort_m3u_entries args entries, ∀ (n : Nat) (gt : String),
        args.group_idx.get? n = some gt → e.group_title = some gt → e.group_idx = n + 1) ∧
    (∀ e ∈ sort_m3u_entries args entries,
        (∀ gt ∈ args.group_idx, e.group_title ≠ some gt) → e.group_idx = 0) ∧
    (∀ (p q : Nat) (ep eq2 : M3uItem),
        (sort_m3u_entries args entries).get? p = some ep →
        (sort_m3u_entries args entries).get? q = some eq2 →
        (∀ gt ∈ args.group_idx, ep.group_title ≠ some gt) →
        (∃ gt ∈ args.group_idx, eq2.group_title = some gt) → p < q) := by
  have hlen : args.sortchannels.length > 0 := List.length_pos.mpr hsc
  have hout : sort_m3u_entries args entries =
      (channelRankPass 0 args.sortchannels
        (groupRankPass 0 args.group_idx entries)).insertionSort rankLe := by
    unfold sort_m3u_entries
    rw [if_pos hlen]
  have hmemrank : ∀ e ∈ sort_m3u_entries args entries,
      ∃ e0 ∈ entries, e.group_idx = (groupStamp 0 args.group_idx e0).group_idx ∧
        e.group_title = e0.group_title := by
    intro e he
    rw [hout] at he
    have he2 := (List.mem_insertionSort rankLe).mp he
    obtain ⟨e0, hmem, h1, h2, _⟩ := rankedEntry_exists args entries e he2
    exact ⟨e0, hmem, h1, h2⟩
  have hA : ∀ e ∈ sort_m3u_entries args entries, ∀ (n : Nat) (gt : String),
      args.group_idx.get? n = some gt → e.group_title = some gt → e.group_idx = n + 1 := by
    intro e he n gt hget htitle
    obtain ⟨e0, _, h1, h2⟩ := hmemrank e he
    have htitle0 : e0.group_title = some gt := h2 ▸ htitle
    rw [h1, groupStamp_rank args.group_idx hnodup n gt hget 0 e0 htitle0]
    omega
  have hB : ∀ e ∈ sort_m3u_entries args entries,
      (∀ gt ∈ args.group_idx, e.group_title ≠ some gt) → e.group_idx = 0 := by
    intro e he hunc
    obtain ⟨e0, hmem, h1, h2⟩ := hmemrank e he
    have hunc0 : ∀ gt ∈ args.group_idx, e0.group_title ≠ some gt := by
      intro gt hgt
      rw [← h2]
      exact hunc gt hgt
    rw [h1, groupStamp_notmem args.group_idx 0 e0 hunc0]
    exact hdef e0 hmem
  refine ⟨hA, hB, ?_⟩
  intro p q ep eq2 hp hq hunc hcon
  obtain ⟨gt, hgtmem, hgteq⟩ := hcon
  obtain ⟨n, hn⟩ := List.mem_iff_get?.mp hgtmem
  have hepmem : ep ∈ sort_m3u_entries args entries := List.mem_iff_get?.mpr ⟨p, hp⟩
  have heqmem : eq2 ∈ sort_m3u_entries args entries := List.mem_iff_get?.mpr ⟨q, hq⟩
  have hep0 : ep.group_idx = 0 := hB ep hepmem hunc
  have heqn : eq2.group_idx = n + 1 := hA eq2 heqmem n gt hn hgteq
  have hsorted : List.Pairwise rankLe (sort_m3u_entries args entries) := by
    rw [hout]
    exact List.sorted_insertionSort rankLe _
  obtain ⟨hplen, hpget⟩ := List.get?_eq_some.mp hp
  obtain ⟨hqlen, hqget⟩ := List.get?_eq_some.mp hq
  by_contra hpq
  push_neg at hpq
  rcases Nat.lt_or_ge q p with hlt | hge
  · have hR := List.pairwise_iff_get.mp hsorted ⟨q, hqlen⟩ ⟨p, hplen⟩ hlt
    rw [hpget, hqget] at hR
    unfold rankLe at hR
    omega
  · have hpq2 : p = q := by omega
    subst hpq2
    rw [hp] at hq
    have : ep = eq2 := Option.some.inj hq
    subst this
    omega

def cArgsC2w : Args := { group_idx := ["Sport", "News"], sortchannels := ["a"] }

/-- Witness for C2 (amended) at the concrete configuration. -/
theorem C2_group_rank_order_witness :
    (cArgsC2w.group_idx.Nodup ∧ (∀ e ∈ [cEntNews2, cEntSport2], e.group_idx = 0) ∧
      cArgsC2w.sortchannels ≠ []) ∧
    ((∀ e ∈ sort_m3u_entries cArgsC2w [cEntNews2, cEntSport2], ∀ (n : Nat) (gt : String),
        cArgsC2w.group_idx.get? n = some gt → e.group_title = some gt → e.group_idx = n + 1) ∧
    (∀ e ∈ sort_m3u_entries cArgsC2w [cEntNews2, cEntSport2],
        (∀ gt ∈ cArgsC2w.group_idx, e.group_title ≠ some gt) → e.group_idx = 0) ∧
    (∀ (p q : Nat) (ep eq2 : M3uItem),
        (sort_m3u_entries cArgsC2w [cEntNews2, cEntSport2]).get? p = some ep →
        (sort_m3u_entries cArgsC2w [cEntNews2, cEntSport2]).get? q = some eq2 →
        (∀ gt ∈ cArgsC2w.group_idx, ep.group_title ≠ some gt) →
        (∃ gt ∈ cArgsC2w.group_idx, eq2.group_title = some gt) → p < q)) :=
  ⟨⟨by decide, by decide, by decide⟩,
   C2_group_rank_order cArgsC2w [cEntNews2, cEntSport2] (by decide) (by decide) (by decide)⟩

/-! ### Claim C8: explicit channel order ranking -/

def cArgsC8 : Args := { sortchannels := ["BBC"] }

def cEntBbc1 : M3uItem :=
  { tvg_name := some "BBC", group_title := some "G", name := some "1", url := some "u" }

def cEntBbc2 : M3uItem :=
  { tvg_name := some "BBC", group_title := some "G", name := some "2", url := some "u" }

/-- C8 counterexample: two entries share the display name "BBC" matching the
0th configured channel, but only the first receives channel-rank 0 — the
second keeps the default maximum rank, refuting "every entry whose display
name case-insensitively equals the Nth configured channel name receives
channel-rank N". -/
theorem C8_counterexample :
    ¬ (∀ e ∈ sort_m3u_entries cArgsC8 [cEntBbc1, cEntBbc2],
        ∀ (n : Nat) (sc : String), cArgsC8.sortchannels.get? n = some sc →
        lowStr (e.tvg_name.getD "") = lowStr sc → e.channel_idx = n) := by
  intro h
  have h2 := h cEntBbc2 (by decide) 0 "BBC" (by decide) (by decide)
  revert h2
  decide

/-- C8 amended: with an explicit channel order configured (pairwise
case-insensitively distinct), the *first* entry in list order whose display
name case-insensitively equals the Nth configured channel receives
channel-rank N (0-based); every entry of the final sequence either keeps the
default maximum rank or carries the rank of the configured channel its name
matches; and a default-rank entry sorts after every explicitly-ranked entry
within its group in the final (group-rank, channel-rank) order. -/
theorem C8_channel_rank_order (args : Args) (entries : List M3uItem)
    (hdist : args.sortchannels.Pairwise (fun a b => lowStr a ≠ lowStr b))
    (hdef : ∀ e ∈ entries, e.channel_idx = sysMaxsize)
    (hlen : args.sortchannels.length ≤ sysMaxsize)
    (hsc : args.sortchannels ≠ []) :
    (∀ (n : Nat) (sc : String), args.sortchannels.get? n = some sc →
      ∀ (p : Nat) (e0 : M3uItem), firstMatchIdx sc entries = some p →
        entries.get? p = some e0 →
        ({ groupStamp 0 args.group_idx e0 with channel_idx := n } : M3uItem) ∈
          sort_m3u_entries args entries) ∧
    (∀ e ∈ sort_m3u_entries args entries,
      e.channel_idx = sysMaxsize ∨
        ∃ (n : Nat) (sc : String), args.sortchannels.get? n = some sc ∧ e.channel_idx = n ∧
          lowStr (e.tvg_name.getD "") = lowStr sc) ∧
    (∀ (p q : Nat) (ep eq2 : M3uItem),
      (sort_m3u_entries args entries).get? p = some ep →
      (sort_m3u_entries args entries).get? q = some eq2 →
      ep.group_idx = eq2.group_idx → ep.channel_idx ≠ sysMaxsize →
      eq2.channel_idx = sysMaxsize → p < q) := by
  have hlenpos : args.sortchannels.length > 0 := List.length_pos.mpr hsc
  have hout : sort_m3u_entries args entries =
      (channelRankPass 0 args.sortchannels
        (groupRankPass 0 args.group_idx entries)).insertionSort rankLe := by
    unfold sort_m3u_entries
    rw [if_pos hlenpos]
  have hnames : (groupRankPass 0 args.group_idx entries).map (fun e => e.tvg_name) =
      entries.map (fun e => e.tvg_name) := groupRankPass_names args.group_idx 0 entries
  have hA : ∀ (n : Nat) (sc : String), args.sortchannels.get? n = some sc →
      ∀ (p : Nat) (e0 : M3uItem), firstMatchIdx sc entries = some p →
        entries.get? p = some e0 →
        ({ groupStamp 0 args.group_idx e0 with channel_idx := n } : M3uItem) ∈
          sort_m3u_entries args entries := by
    intro n sc hget p e0 hfm hep
    have hchar := channelRankPass_get? args.sortchannels hdist 0
      (groupRankPass 0 args.group_idx entries) p
    have har : assignedRank ((groupRankPass 0 args.group_idx entries).map
        (fun e => e.tvg_name)) p args.sortchannels = some n := by
      rw [hnames]
      exact assignedRank_of_first args.sortchannels hdist _ n sc p hget hfm
    have hrget : (groupRankPass 0 args.group_idx entries).get? p =
        some (groupStamp 0 args.group_idx e0) := by
      rw [groupRankPass_eq_map, List.get?_map, hep]
      rfl
    rw [har, hrget] at hchar
    simp only [Option.map_some'] at hchar
    have hzero : (0 : Nat) + n = n := Nat.zero_add n
    rw [hzero] at hchar
    rw [hout]
    exact (List.mem_insertionSort rankLe).mpr (List.mem_iff_get?.mpr ⟨p, hchar⟩)
  have hB : ∀ e ∈ sort_m3u_entries args entries,
      e.channel_idx = sysMaxsize ∨
        ∃ (n : Nat) (sc : String), args.sortchannels.get? n = some sc ∧ e.channel_idx = n ∧
          lowStr (e.tvg_name.getD "") = lowStr sc := by
    intro e he
    rw [hout] at he
    have he2 := (List.mem_insertionSort rankLe).mp he
    obtain ⟨k, hk⟩ := List.mem_iff_get?.mp he2
    have hchar := channelRankPass_get? args.sortchannels hdist 0
      (groupRankPass 0 args.group_idx entries) k
    rw [hk, hnames] at hchar
    cases har : assignedRank (entries.map (fun e => e.tvg_name)) k args.sortchannels with
    | none =>
      rw [har] at hchar
      left
      rw [groupRankPass_eq_map, List.get?_map] at hchar
      cases hek : entries.get? k with
      | none => rw [hek] at hchar; simp at hchar
      | some e0 =>
        rw [hek] at hchar
        simp only [Option.map_some'] at hchar
        have he0 : e = groupStamp 0 args.group_idx e0 := Option.some.inj hchar
        rw [he0, groupStamp_channel_idx]
        exact hdef e0 (List.get?_mem hek)
    | some n =>
      rw [har] at hchar
      right
      obtain ⟨sc, hget, hfm⟩ := assignedRank_spec _ k args.sortchannels n har
      obtain ⟨nm, hnm, hmat⟩ := firstMatchIdxN_spec sc _ k hfm
      rw [groupRankPass_eq_map, List.get?_map] at hchar
      cases hek : entries.get? k with
      | none => rw [hek] at hchar; simp at hchar
      | some e0 =>
        rw [hek] at hchar
        simp only [Option.map_some'] at hchar
        have he0 : e = { groupStamp 0 args.group_idx e0 with channel_idx := 0 + n } :=
          Option.some.inj hchar
        have hname : nm = e0.tvg_name := by
          rw [List.get?_map, hek] at hnm
          simp only [Option.map_some'] at hnm
          exact (Option.some.inj hnm).symm
        refine ⟨n, sc, hget, ?_, ?_⟩
        · rw [he0]
          exact Nat.zero_add n
        · have hen : e.tvg_name = e0.tvg_name := by
            rw [he0]
            exact groupStamp_tvg_name args.group_idx 0 e0
          rw [hen, ← hname]
          simpa [nameMatches, beq_iff_eq] using hmat
  refine ⟨hA, hB, ?_⟩
  intro p q ep eq2 hp hq hgrp hepn heqm
  have hepmem : ep ∈ sort_m3u_entries args entries := List.mem_iff_get?.mpr ⟨p, hp⟩
  have hepB := hB ep hepmem
  rcases hepB with h0 | ⟨n, sc, hget, hcn, _⟩
  · exact absurd h0 hepn
  have hnlt : n < args.sortchannels.length := by
    obtain ⟨hh, _⟩ := List.get?_eq_some.mp hget
    exact hh
  have hsorted : List.Pairwise rankLe (sort_m3u_entries args entries) := by
    rw [hout]
    exact List.sorted_insertionSort rankLe _
  obtain ⟨hplen, hpget⟩ := List.get?_eq_some.mp hp
  obtain ⟨hqlen, hqget⟩ := List.get?_eq_some.mp hq
  by_contra hpq
  push_neg at hpq
  rcases Nat.lt_or_ge q p with hlt | hge
  · have hR := List.pairwise_iff_get.mp hsorted ⟨q, hqlen⟩ ⟨p, hplen⟩ hlt
    rw [hpget, hqget] at hR
    unfold rankLe at hR
    omega
  · have hpq2 : p = q := by omega
    subst hpq2
    rw [hp] at hq
    have : ep = eq2 := Option.some.inj hq
    subst this
    omega

/-! ### Claim C10: missing identifiers abort guide reconciliation -/

def cArgsC10 : Args := { no_tvg_id := true }

def cEntNoId : M3uItem :=
  { tvg_name := some "NN", group_title := some "G", name := some "NN", url := some "u" }

/-- C10: with the allow-missing-identifiers mode enabled and some filtered
entry carrying no identifier, `create_new_epg` raises an uncaught
`AttributeError` while building the case-normalised dedupe mapping (the
`{e.tvg_id.lower(): e ...}` comprehension calls `.lower()` on `None` *before*
the `try` block), so the result is neither a guide tree nor the no-result
value — the run aborts via the process-wide exception handler. -/
theorem C10_missing_id_aborts (args : Args) (rsub : Rsub) (src : Option Guide)
    (m3u_entries : List M3uItem) (now : Int)
    (hmode : args.no_tvg_id = true)
    (hmiss : ∃ e ∈ m3u_entries, e.tvg_id = none) :
    create_new_epg args rsub src m3u_entries now = Except.error () := by
  unfold create_new_epg
  rw [if_pos]
  obtain ⟨e, hmem, hid⟩ := hmiss
  rw [List.any_eq_true]
  exact ⟨e, hmem, by rw [hid]; rfl⟩

/-- Witness for C10 at a concrete identifier-less entry. -/
theorem C10_missing_id_aborts_witness :
    (cArgsC10.no_tvg_id = true ∧ ∃ e ∈ [cEntNoId], e.tvg_id = none) ∧
    create_new_epg cArgsC10 rsubId none [cEntNoId] 0 = Except.error () :=
  ⟨⟨rfl, ⟨cEntNoId, by decide, rfl⟩⟩,
   C10_missing_id_aborts cArgsC10 rsubId none [cEntNoId] 0 rfl
     ⟨cEntNoId, by decide, rfl⟩⟩

/-! ### Claim C7: the guide reconciliation invariant -/

/-- The claim's invariant exactly as stated: every output channel's id is the
identifier of some entry under the configured case rules, and every output
programme's channel attribute names some *output channel node* and its start
lies in the closed window. -/
def epgClaimInv (args : Args) (m3u_entries : List M3uItem) (now : Int)
    (out : OutGuide) : Prop :=
  (∀ ch ∈ out.channels, ∃ e ∈ m3u_entries,
    (if !args.preserve_case then lowStr (e.tvg_id.getD "") else e.tvg_id.getD "") = ch.id) ∧
  (∀ p ∈ out.programmes,
    (∃ ch ∈ out.channels, p.channel = ch.id) ∧
    now - args.range ≤ p.start ∧ p.start ≤ now + args.range)

def cArgsC7 : Args := {}

def cEntX : M3uItem :=
  { tvg_name := some "X", tvg_id := some "x", group_title := some "G", name := some "X",
    url := some "u" }

def cProgX : XmlProgramme := { channel := "x", start := 0, attrs := [], subs := [] }

def cGuideC7 : Guide :=
  { channels := [{ id := some "y", subs := [] }], programmes := [cProgX] }

/-- C7 counterexample: the source guide carries programmes for identifier `x`
but no channel node with that id, so reconciliation emits programme nodes
whose `channel` attribute names no output channel node at all — the claimed
invariant fails on the produced guide. -/
theorem C7_counterexample :
    createBody cArgsC7 rsubId cGuideC7 [cEntX] 0 =
      some { channels := [], programmes := [cProgX] } ∧
    ¬ epgClaimInv cArgsC7 [cEntX] 0 { channels := [], programmes := [cProgX] } := by
  constructor
  · rfl
  · intro h
    obtain ⟨ch, hch, _⟩ := (h.2 cProgX (by decide)).1
    simp at hch

theorem lookup_key_mem {β : Type} :
    ∀ (d : List (String × β)) (k : String) (ps : β), List.lookup k d = some ps →
      ∃ k2, (k2, ps) ∈ d ∧ k = k2 := by
  intro d
  induction d with
  | nil => intro k ps h; simp at h
  | cons kv rest ih =>
    intro k ps h
    obtain ⟨k0, v0⟩ := kv
    by_cases hk : (k == k0) = true
    · have hkeq : k = k0 := by simpa [beq_iff_eq] using hk
      have hv : v0 = ps := by
        simp only [List.lookup, hk] at h
        exact Option.some.inj h
      refine ⟨k0, ?_, hkeq⟩
      rw [← hv]
      exact List.mem_cons_self _ _
    · have hk2 : (k == k0) = false := by simpa using hk
      simp only [List.lookup, hk2] at h
      obtain ⟨k2, hmem, hkeq⟩ := ih k ps h
      exact ⟨k2, List.mem_cons_of_mem _ hmem, hkeq⟩

/-- Every bucket of the channel dictionary holds only programmes whose
`channel` attribute equals the bucket key. -/
def dictMemWf (d : List (String × List XmlProgramme)) : Prop :=
  ∀ k ps, (k, ps) ∈ d → ∀ p ∈ ps, p.channel = k

theorem dictInsert_wf (p : XmlProgramme) :
    ∀ (d : List (String × List XmlProgramme)), dictMemWf d → dictMemWf (dictInsert p d) := by
  intro d
  induction d with
  | nil =>
    intro _ k ps hmem q hq
    simp only [dictInsert, List.mem_singleton] at hmem
    obtain ⟨hk, hps⟩ := Prod.mk.inj hmem
    subst hk
    subst hps
    simp only [List.mem_singleton] at hq
    subst hq
    rfl
  | cons kv rest ih =>
    intro hwf k ps hmem q hq
    obtain ⟨k0, ps0⟩ := kv
    have hwf0 : ∀ p2 ∈ ps0, p2.channel = k0 := hwf k0 ps0 (List.mem_cons_self _ _)
    have hwfrest : dictMemWf rest := fun k2 ps2 hm => hwf k2 ps2 (List.mem_cons_of_mem _ hm)
    simp only [dictInsert] at hmem
    by_cases hk : (k0 == p.channel) = true
    · rw [if_pos hk] at hmem
      rcases List.mem_cons.mp hmem with h1 | h2
      · obtain ⟨hkk, hpp⟩ := Prod.mk.inj h1
        rw [hpp] at hq
        rcases List.mem_append.mp hq with hq1 | hq2
        · rw [hkk]
          exact hwf0 q hq1
        · simp only [List.mem_singleton] at hq2
          rw [hq2, hkk]
          exact (by simpa [beq_iff_eq] using hk : k0 = p.channel).symm
      · exact hwfrest k ps h2 q hq
    · rw [if_neg hk] at hmem
      rcases List.mem_cons.mp hmem with h1 | h2
      · obtain ⟨hkk, hpp⟩ := Prod.mk.inj h1
        rw [hpp] at hq
        rw [hkk]
        exact hwf0 q hq
      · exact ih hwfrest k ps h2 q hq

theorem create_channel_dictionary_wf (progs : List XmlProgramme) :
    dictMemWf (create_channel_dictionary progs) := by
  unfold create_channel_dictionary
  induction progs using List.reverseRecOn with
  | nil => intro k ps hmem; simp at hmem
  | append_singleton rest p ih =>
    rw [List.foldl_append, List.foldl_cons, List.foldl_nil]
    exact dictInsert_wf p _ ih

theorem projectChannels_mem (args : Args) (rsub : Rsub) (uniq : List M3uItem) :
    ∀ (l : List XmlChannel) (created : List String) (ch : OutChannel),
      ch ∈ projectChannels args rsub uniq l created →
      ∃ cid, (∃ e ∈ uniq, lowStr (e.tvg_id.getD "") = lowStr cid) ∧
        ch.id = (if !args.preserve_case then lowStr cid else cid) := by
  intro l
  induction l with
  | nil => intro created ch h; simp [projectChannels] at h
  | cons c rest ih =>
    intro created ch h
    cases hcid : c.id with
    | none =>
      simp only [projectChannels, hcid] at h
      exact ih created ch h
    | some cid =>
      simp only [projectChannels, hcid] at h
      by_cases hcond : (cid != "" && !(created.contains cid) &&
          uniq.any (fun x => lowStr (x.tvg_id.getD "") == lowStr cid)) = true
      · rw [if_pos hcond] at h
        rcases List.mem_cons.mp h with h1 | h2
        · obtain ⟨hmatch, _⟩ := Bool.and_eq_true_iff.mp hcond
          have hany := (Bool.and_eq_true_iff.mp hcond).2
          obtain ⟨e, hmem, hbeq⟩ := List.any_eq_true.mp hany
          refine ⟨cid, ⟨e, hmem, by simpa [beq_iff_eq] using hbeq⟩, ?_⟩
          rw [h1]
        · exact ih (created ++ [cid]) ch h2
      · rw [if_neg hcond] at h
        exact ih created ch h

theorem synthChannels_mem (m3u_entries : List M3uItem) (ch : OutChannel)
    (h : ch ∈ synthChannels m3u_entries) :
    ∃ e ∈ m3u_entries, missingId e = true ∧ ch.id = e.tvg_name.getD "" := by
  unfold synthChannels at h
  obtain ⟨e, hmem, heq⟩ := List.mem_map.mp h
  obtain ⟨hmem2, hmiss⟩ := List.mem_filter.mp hmem
  exact ⟨e, hmem2, hmiss, by rw [← heq]⟩

theorem orderChannels_mem (args : Args) (uniq : List M3uItem) (chans : List OutChannel)
    (sorted : List OutChannel) (h : orderChannels args uniq chans = some sorted) :
    ∀ ch ∈ sorted, ch ∈ chans := by
  unfold orderChannels at h
  by_cases h1 : chans.length > 0
  · rw [if_pos h1] at h
    by_cases h2 : (args.xml_sort_type == "alpha") = true
    · rw [if_pos h2] at h
      intro ch hch
      rw [← Option.some.inj h] at hch
      exact (List.mem_insertionSort _).mp hch
    · rw [if_neg h2] at h
      by_cases h3 : (args.xml_sort_type == "m3u") = true
      · rw [if_pos h3] at h
        unfold m3uSortChannels at h
        by_cases h4 : (chans.all fun ch =>
            (uniq.map (fun x => lowStr (x.tvg_id.getD ""))).contains (lowStr ch.id)) = true
        · rw [if_pos h4] at h
          intro ch hch
          rw [← Option.some.inj h] at hch
          exact (List.mem_insertionSort _).mp hch
        · rw [if_neg h4] at h
          simp at h
      · rw [if_neg h3] at h
        intro ch hch
        rw [← Option.some.inj h] at hch
        exact hch
  · rw [if_neg h1] at h
    intro ch hch
    rw [← Option.some.inj h] at hch
    exact hch

theorem projectProgrammes_mem (args : Args) (now : Int)
    (dict : List (String × List XmlProgramme)) (hdict : dictMemWf dict) :
    ∀ (es : List M3uItem) (p : XmlProgramme), p ∈ projectProgrammes args now dict es →
      ∃ e ∈ es,
        p.channel = (if !args.preserve_case then lowStr (e.tvg_id.getD "")
          else e.tvg_id.getD "") ∧
        is_in_range args now p.start = true := by
  intro es
  induction es with
  | nil => intro p h; simp [projectProgrammes] at h
  | cons e rest ih =>
    intro p h
    simp only [projectProgrammes] at h
    by_cases hcond : (e.tvg_id != none && e.tvg_id != some "" && e.tvg_id != some "None") = true
    · rw [if_pos hcond] at h
      cases hlk : List.lookup (if !args.preserve_case then lowStr (e.tvg_id.getD "")
          else e.tvg_id.getD "") dict with
      | none =>
        rw [hlk] at h
        obtain ⟨e2, hmem, hrest⟩ := ih p h
        exact ⟨e2, List.mem_cons_of_mem e hmem, hrest⟩
      | some ps =>
        rw [hlk] at h
        rcases List.mem_append.mp h with h1 | h2
        · obtain ⟨hps, hin⟩ := List.mem_filter.mp h1
          obtain ⟨k2, hk2mem, hk2eq⟩ := lookup_key_mem dict _ ps hlk
          have hchan : p.channel = k2 := hdict k2 ps hk2mem p hps
          exact ⟨e, List.mem_cons_self e rest, by rw [hchan, ← hk2eq], hin⟩
        · obtain ⟨e2, hmem, hrest⟩ := ih p h2
          exact ⟨e2, List.mem_cons_of_mem e hmem, hrest⟩
    · rw [if_neg hcond] at h
      obtain ⟨e2, hmem, hrest⟩ := ih p h
      exact ⟨e2, List.mem_cons_of_mem e hmem, hrest⟩

theorem synthProgs_mem (args : Args) (now : Int) (m3u_entries : List M3uItem)
    (p : XmlProgramme) (h : p ∈ synthProgs args now m3u_entries) :
    ∃ e ∈ m3u_entries, missingId e = true ∧ p.channel = e.tvg_name.getD "" ∧
      is_in_range args now p.start = true := by
  unfold synthProgs at h
  obtain ⟨e, hmem, hin⟩ := List.mem_flatMap.mp h
  obtain ⟨hmem2, hmiss⟩ := List.mem_filter.mp hmem
  obtain ⟨i, _, hif⟩ := List.mem_filterMap.mp hin
  by_cases hr : is_in_range args now (now + 2 * (i : Int)) = true
  · rw [if_pos hr] at hif
    have hp := Option.some.inj hif
    refine ⟨e, hmem2, hmiss, ?_, ?_⟩
    · rw [← hp]
    · rw [← hp]
      exact hr
  · rw [if_neg hr] at hif
    simp at hif

/-- C7 amended: for every successfully produced output guide, every channel
node's id is, case-insensitively, the identifier of some deduped surviving
entry — or, for the synthetic fallback, the display name of an entry without
an identifier; and every programme node's channel attribute equals the
case-ruled identifier of some deduped surviving entry (or the display name of
an identifier-less one) and its start timestamp lies within the closed window
`[now - range, now + range]`.  (The claim's stronger statement, that every
programme names an *output channel node*, fails: see the counterexample.) -/
theorem C7_epg_invariant (args : Args) (rsub : Rsub) (g : Guide)
    (m3u_entries : List M3uItem) (now : Int) (out : OutGuide)
    (hbody : createBody args rsub g m3u_entries now = some out) :
    (∀ ch ∈ out.channels,
      (∃ cid, (∃ e ∈ tvgIdUnique m3u_entries, lowStr (e.tvg_id.getD "") = lowStr cid) ∧
        ch.id = (if !args.preserve_case then lowStr cid else cid)) ∨
      (∃ e ∈ m3u_entries, missingId e = true ∧ ch.id = e.tvg_name.getD "")) ∧
    (∀ p ∈ out.programmes,
      ((∃ e ∈ tvgIdUnique m3u_entries,
          p.channel = (if !args.preserve_case then lowStr (e.tvg_id.getD "")
            else e.tvg_id.getD "")) ∨
        (∃ e ∈ m3u_entries, missingId e = true ∧ p.channel = e.tvg_name.getD "")) ∧
      now - args.range ≤ p.start ∧ p.start ≤ now + args.range) := by
  unfold createBody at hbody
  cases hord : orderChannels args (tvgIdUnique m3u_entries)
      (guideChannels args rsub g m3u_entries) with
  | none => rw [hord] at hbody; simp at hbody
  | some sorted =>
    rw [hord] at hbody
    have hout := Option.some.inj hbody
    constructor
    · intro ch hch
      have hch2 : ch ∈ sorted := by
        rw [← hout] at hch
        exact hch
      have hch3 := orderChannels_mem args _ _ sorted hord ch hch2
      unfold guideChannels at hch3
      rcases List.mem_append.mp hch3 with h1 | h2
      · obtain ⟨cid, hmatch, hid⟩ := projectChannels_mem args rsub _ g.channels [] ch h1
        exact Or.inl ⟨cid, hmatch, hid⟩
      · by_cases hflag : (args.no_tvg_id && args.force_epg) = true
        · rw [if_pos hflag] at h2
          exact Or.inr (synthChannels_mem m3u_entries ch h2)
        · rw [if_neg hflag] at h2
          simp at h2
    · intro p hp
      have hp2 : p ∈ guideProgrammes args g m3u_entries now
          (guideChannels args rsub g m3u_entries).length := by
        rw [← hout] at hp
        exact hp
      unfold guideProgrammes at hp2
      have hrange : ∀ s : Int, is_in_range args now s = true →
          now - args.range ≤ s ∧ s ≤ now + args.range := by
        intro s hs
        unfold is_in_range at hs
        obtain ⟨h1, h2⟩ := Bool.and_eq_true_iff.mp hs
        exact ⟨by exact_mod_cast of_decide_eq_true h1, by exact_mod_cast of_decide_eq_true h2⟩
      rcases List.mem_append.mp hp2 with h1 | h2
      · obtain ⟨e, hmem, hchan, hin⟩ := projectProgrammes_mem args now _
          (create_channel_dictionary_wf _) _ p h1
        exact ⟨Or.inl ⟨e, hmem, hchan⟩, hrange p.start hin⟩
      · by_cases hflag : (args.no_tvg_id && args.force_epg) = true
        · rw [if_pos hflag] at h2
          obtain ⟨e, hmem, hmiss, hchan, hin⟩ := synthProgs_mem args now m3u_entries p h2
          exact ⟨Or.inr ⟨e, hmem, hmiss, hchan⟩, hrange p.start hin⟩
        · rw [if_neg hflag] at h2
          simp at h2

def cGuideC7w : Guide :=
  { channels := [{ id := some "x", subs := [] }], programmes := [cProgX] }

def cOutC7w : OutGuide :=
  { channels := [{ id := "x", subs := [] }], programmes := [cProgX] }

/-- Witness for C7 (amended) at a concrete guide whose channel and programme
both match the entry's identifier. -/
theorem C7_epg_invariant_witness :
    (createBody cArgsC7 rsubId cGuideC7w [cEntX] 0 = some cOutC7w) ∧
    ((∀ ch ∈ cOutC7w.channels,
      (∃ cid, (∃ e ∈ tvgIdUnique [cEntX], lowStr (e.tvg_id.getD "") = lowStr cid) ∧
        ch.id = (if !cArgsC7.preserve_case then lowStr cid else cid)) ∨
      (∃ e ∈ [cEntX], missingId e = true ∧ ch.id = e.tvg_name.getD "")) ∧
    (∀ p ∈ cOutC7w.programmes,
      ((∃ e ∈ tvgIdUnique [cEntX],
          p.channel = (if !cArgsC7.preserve_case then lowStr (e.tvg_id.getD "")
            else e.tvg_id.getD "")) ∨
        (∃ e ∈ [cEntX], missingId e = true ∧ p.channel = e.tvg_name.getD "")) ∧
      (0 : Int) - cArgsC7.range ≤ p.start ∧ p.start ≤ (0 : Int) + cArgsC7.range)) :=
  ⟨by rfl,
   C7_epg_invariant cArgsC7 rsubId cGuideC7w [cEntX] 0 cOutC7w (by rfl)⟩

def cArgsC8w : Args := { sortchannels := ["b", "a"] }

/-- Witness for C8 (amended) at a concrete two-channel order. -/
theorem C8_channel_rank_order_witness :
    (cArgsC8w.sortchannels.Pairwise (fun a b => lowStr a ≠ lowStr b) ∧
      (∀ e ∈ [cEntNews2, cEntSport2], e.channel_idx = sysMaxsize) ∧
      cArgsC8w.sortchannels.length ≤ sysMaxsize ∧ cArgsC8w.sortchannels ≠ []) ∧
    ((∀ (n : Nat) (sc : String), cArgsC8w.sortchannels.get? n = some sc →
      ∀ (p : Nat) (e0 : M3uItem), firstMatchIdx sc [cEntNews2, cEntSport2] = some p →
        [cEntNews2, cEntSport2].get? p = some e0 →
        ({ groupStamp 0 cArgsC8w.group_idx e0 with channel_idx := n } : M3uItem) ∈
          sort_m3u_entries cArgsC8w [cEntNews2, cEntSport2]) ∧
    (∀ e ∈ sort_m3u_entries cArgsC8w [cEntNews2, cEntSport2],
      e.channel_idx = sysMaxsize ∨
        ∃ (n : Nat) (sc : String), cArgsC8w.sortchannels.get? n = some sc ∧
          e.channel_idx = n ∧ lowStr (e.tvg_name.getD "") = lowStr sc) ∧
    (∀ (p q : Nat) (ep eq2 : M3uItem),
      (sort_m3u_entries cArgsC8w [cEntNews2, cEntSport2]).get? p = some ep →
      (sort_m3u_entries cArgsC8w [cEntNews2, cEntSport2]).get? q = some eq2 →
      ep.group_idx = eq2.group_idx → ep.channel_idx ≠ sysMaxsize →
      eq2.channel_idx = sysMaxsize → p < q)) :=
  ⟨⟨by decide, by decide, by decide, by decide⟩,
   C8_channel_rank_order cArgsC8w [cEntNews2, cEntSport2]
     (by decide) (by decide) (by decide) (by decide)⟩

/-! ### C9: serialization round-trip -/

/-- Case-insensitive pairwise equality of two character lists (full-length
match of a literal pattern under `re.IGNORECASE`). -/
def ciEqL : List Char → List Char → Bool
  | [], [] => true
  | a :: as, b :: bs => ciEqC a b && ciEqL as bs
  | _, _ => false

/-- No suffix of `ka` (including `ka` itself) case-insensitively equals `k`:
the key `k` can never complete a match that started inside the serialized
key `ka`. -/
def noCiSuffix (k ka : List Char) : Bool :=
  (List.range (ka.length + 1)).all (fun i => !(ciEqL k (ka.drop i)))

/-- An attribute value that serializes cleanly: none of its characters
case-folds to a quote, an equals sign, a comma or a hash. -/
def cleanVal (v : String) : Bool :=
  v.data.all (fun c => !(ciEqC c '\"') && !(ciEqC c '=') && !(ciEqC c ',') && !(ciEqC c '#'))

/-- A display text that serializes cleanly: no character case-folds to a
quote, an equals sign or a hash (commas are allowed — the display text is
the last, unquoted field). -/
def cleanName (v : String) : Bool :=
  v.data.all (fun c => !(ciEqC c '\"') && !(ciEqC c '=') && !(ciEqC c '#'))

/-- A well-formed attribute key: non-empty, and no character case-folds to a
quote, an equals sign, a space or a comma. -/
def keyClean (k : String) : Bool :=
  !(k.data.isEmpty) &&
  k.data.all (fun c => !(ciEqC c '\"') && !(ciEqC c '=') && !(ciEqC c ' ') && !(ciEqC c ',') &&
    !(ciEqC c '#'))

theorem ciEqC_symm (a b : Char) : ciEqC a b = ciEqC b a := by
  simp [ciEqC, lowChar, beq_iff_eq, eq_comm]

theorem ciEqC_self (a : Char) : ciEqC a a = true := by
  simp [ciEqC, lowChar]

theorem ne_of_ciEqC_false {a b : Char} (h : ciEqC a b = false) : a ≠ b := by
  intro he; rw [he, ciEqC_self] at h; exact absurd h (by simp)

def cArgsC9 : Args := { groupmode := "keep", groups := ["News"] }

def cEntBbcId : M3uItem :=
  { tvg_name := some "BBC One", tvg_id := some "BBC1", group_title := some "News",
    name := some "BBC One", url := some "http://u/1" }

/-- C9 (counterexample): a surviving entry whose identifier is `BBC1` is
serialized and re-parsed, under the default configuration, into an entry with
identifier `bbc1`: the visible channel-identifier attribute is not preserved
by the round trip. -/
theorem C9_counterexample :
    cEntBbcId ∈ filter_m3u_entries cArgsC9 rxNever rsubId [cEntBbcId] ∧
    (parseRecord cArgsC9.no_tvg_id (metaLineOf cArgsC9 cEntBbcId none)
        (pyStr cEntBbcId.url)).map M3uItem.tvg_id = some (some "bbc1") ∧
    cEntBbcId.tvg_id = some "BBC1" := by
  exact ⟨by decide, by decide, rfl⟩

theorem ciPre_through_quote (k : List Char)
    (hk : ∀ c ∈ k, ciEqC c '"' = false ∧ ciEqC c '=' = false) :
    ∀ (w tail : List Char), (∀ c ∈ w, ciEqC c '=' = false) →
      ciPre (k ++ ['=', '"']) (w ++ '"' :: tail) = false := by
  induction k with
  | nil =>
    intro w tail hw
    cases w with
    | nil =>
      have h0 : ciEqC '=' '"' = false := by decide
      simp [ciPre, h0]
    | cons c w' =>
      have h0 : ciEqC '=' c = false := by rw [ciEqC_symm]; exact hw c (by simp)
      simp [ciPre, h0]
  | cons k0 k' ih =>
    intro w tail hw
    cases w with
    | nil =>
      have h0 : ciEqC k0 '"' = false := (hk k0 (by simp)).1
      simp [ciPre, h0]
    | cons c w' =>
      have hrest := ih (fun c hc => hk c (by simp [hc])) w' tail (fun c hc => hw c (by simp [hc]))
      simp [ciPre, hrest]

theorem ciPre_no_eq_end (k : List Char) :
    ∀ (w : List Char), (∀ c ∈ w, ciEqC c '=' = false) →
      ciPre (k ++ ['=', '"']) w = false := by
  induction k with
  | nil =>
    intro w hw
    cases w with
    | nil => simp [ciPre]
    | cons c w' =>
      have h0 : ciEqC '=' c = false := by rw [ciEqC_symm]; exact hw c (by simp)
      simp [ciPre, h0]
  | cons k0 k' ih =>
    intro w hw
    cases w with
    | nil => simp [ciPre]
    | cons c w' =>
      have hrest := ih w' (fun c hc => hw c (by simp [hc]))
      simp [ciPre, hrest]

theorem ciPre_through_delim :
    ∀ (ka k : List Char),
      (∀ c ∈ k, ciEqC c '"' = false ∧ ciEqC c '=' = false) →
      (∀ c ∈ ka, ciEqC c '=' = false) →
      ciEqL k ka = false →
      ∀ (v tail : List Char), (∀ c ∈ v, ciEqC c '=' = false) →
      ciPre (k ++ ['=', '"']) (ka ++ '=' :: '"' :: (v ++ '"' :: tail)) = false := by
  intro ka
  induction ka with
  | nil =>
    intro k hk _ hne v tail _
    cases k with
    | nil => simp [ciEqL] at hne
    | cons k0 k' =>
      have h0 : ciEqC k0 '=' = false := (hk k0 (by simp)).2
      simp [ciPre, h0]
  | cons a ka' ih =>
    intro k hk hka hne v tail hv
    cases k with
    | nil =>
      have h0 : ciEqC '=' a = false := by rw [ciEqC_symm]; exact hka a (by simp)
      simp [ciPre, h0]
    | cons k0 k' =>
      by_cases hca : ciEqC k0 a = true
      · have hne' : ciEqL k' ka' = false := by
          simp [ciEqL, hca] at hne; exact hne
        have hrest := ih k' (fun c hc => hk c (by simp [hc]))
          (fun c hc => hka c (by simp [hc])) hne' v tail hv
        simp [ciPre, hrest]
      · have hca' : ciEqC k0 a = false := by simpa using hca
        simp [ciPre, hca']

theorem searchAttr_cons_skip (k : List Char) (c : Char) (t : List Char)
    (h : ciPre (k ++ ['=', '"']) (c :: t) = false) :
    searchAttr k (c :: t) = searchAttr k t := by
  simp [searchAttr, h]

theorem searchAttr_skip_value (k : List Char)
    (hk : ∀ c ∈ k, ciEqC c '"' = false ∧ ciEqC c '=' = false) :
    ∀ (v : List Char), (∀ c ∈ v, ciEqC c '=' = false) →
    ∀ tail, searchAttr k (v ++ '"' :: tail) = searchAttr k tail := by
  intro v
  induction v with
  | nil =>
    intro _ tail
    exact searchAttr_cons_skip k '"' tail (ciPre_through_quote k hk [] tail (by simp))
  | cons c v' ih =>
    intro hv tail
    have hstep : ciPre (k ++ ['=', '"']) (c :: (v' ++ '"' :: tail)) = false := by
      have := ciPre_through_quote k hk (c :: v') tail hv
      simpa using this
    rw [List.cons_append, searchAttr_cons_skip k c _ hstep]
    exact ih (fun x hx => hv x (by simp [hx])) tail

theorem searchAttr_skip_attr (k : List Char)
    (hk : ∀ c ∈ k, ciEqC c '"' = false ∧ ciEqC c '=' = false) :
    ∀ (ka : List Char), (∀ c ∈ ka, ciEqC c '"' = false ∧ ciEqC c '=' = false) →
      (∀ i, ciEqL k (ka.drop i) = false) →
    ∀ (v : List Char), (∀ c ∈ v, ciEqC c '=' = false) →
    ∀ tail,
      searchAttr k (ka ++ '=' :: '"' :: (v ++ '"' :: tail)) = searchAttr k tail := by
  intro ka
  induction ka with
  | nil =>
    intro _ hsuf v hv tail
    cases hke : k with
    | nil => have := hsuf 0; rw [hke] at this; simp [ciEqL] at this
    | cons k0 k' =>
      rw [← hke]
      have hm0 : k0 ∈ k := by rw [hke]; simp
      have h1 : ciPre (k ++ ['=', '"']) ('=' :: ('"' :: (v ++ '"' :: tail))) = false := by
        rw [hke]; simp [ciPre, (hk k0 hm0).2]
      have h2 : ciPre (k ++ ['=', '"']) ('"' :: (v ++ '"' :: tail)) = false := by
        rw [hke]; simp [ciPre, (hk k0 hm0).1]
      rw [List.nil_append, searchAttr_cons_skip k '=' _ h1,
        searchAttr_cons_skip k '"' _ h2]
      exact searchAttr_skip_value k hk v hv tail
  | cons a ka' ih =>
    intro hka hsuf v hv tail
    have hstep : ciPre (k ++ ['=', '"'])
        (a :: (ka' ++ '=' :: '"' :: (v ++ '"' :: tail))) = false := by
      have := ciPre_through_delim (a :: ka') k hk
        (fun c hc => (hka c hc).2) (hsuf 0) v tail hv
      simpa using this
    rw [List.cons_append, searchAttr_cons_skip k a _ hstep]
    exact ih (fun c hc => hka c (by simp [hc])) (fun i => hsuf (i + 1)) v hv tail

theorem searchAttr_none (k : List Char) :
    ∀ (w : List Char), (∀ c ∈ w, ciEqC c '=' = false) → searchAttr k w = none := by
  intro w
  induction w with
  | nil => intro _; rfl
  | cons c w' ih =>
    intro hw
    rw [searchAttr_cons_skip k c w' (ciPre_no_eq_end k (c :: w') hw)]
    exact ih (fun x hx => hw x (by simp [hx]))

theorem ciPre_refl_append :
    ∀ (a : List Char) {b c : List Char}, ciPre b c = true → ciPre (a ++ b) (a ++ c) = true := by
  intro a
  induction a with
  | nil => intro b c h; simpa
  | cons x a' ih => intro b c h; simp [ciPre, ciEqC_self, ih h]

theorem takeWhile_append_quote (v : List Char) (hv : ∀ c ∈ v, c ≠ '"') (tail : List Char) :
    (v ++ '"' :: tail).takeWhile (fun ch => !(ch == '"')) = v := by
  induction v with
  | nil => simp
  | cons c v' ih =>
    have hc : c ≠ '"' := hv c (by simp)
    have ih' := ih (fun x hx => hv x (by simp [hx]))
    simp [List.takeWhile_cons, hc, ih']

theorem searchAttr_cons_found (k : List Char) (c : Char) (cs : List Char)
    (h1 : ciPre (k ++ ['=', '"']) (c :: cs) = true)
    (h2 : ((c :: cs).drop (k.length + 2)).contains '"' = true) :
    searchAttr k (c :: cs) =
      some (((c :: cs).drop (k.length + 2)).takeWhile (fun ch => !(ch == '"'))) := by
  simp only [searchAttr]
  rw [h1, h2]
  rfl

theorem searchAttr_found (k : List Char) (hk1 : k ≠ [])
    (v tail : List Char) (hv : ∀ c ∈ v, c ≠ '"') :
    searchAttr k (k ++ '=' :: '"' :: (v ++ '"' :: tail)) = some v := by
  have hpre : ciPre (k ++ ['=', '"']) (k ++ '=' :: '"' :: (v ++ '"' :: tail)) = true := by
    have : ciPre ['=', '"'] ('=' :: '"' :: (v ++ '"' :: tail)) = true := by
      simp [ciPre, ciEqC_self]
    exact ciPre_refl_append k this
  have hdrop : (k ++ '=' :: '"' :: (v ++ '"' :: tail)).drop (k.length + 2) =
      v ++ '"' :: tail :=
    calc (k ++ '=' :: '"' :: (v ++ '"' :: tail)).drop (k.length + 2)
        = ('=' :: '"' :: (v ++ '"' :: tail)).drop 2 := List.drop_append 2
      _ = v ++ '"' :: tail := rfl
  have hcont : (v ++ '"' :: tail).contains '"' = true :=
    List.elem_eq_true_of_mem (by simp)
  cases hke : k with
  | nil => exact absurd hke hk1
  | cons k0 k' =>
    subst hke
    have hd : (k0 :: (k' ++ '=' :: '"' :: (v ++ '"' :: tail))).drop ((k0 :: k').length + 2) =
        v ++ '"' :: tail := hdrop
    have h2' : ((k0 :: (k' ++ '=' :: '"' :: (v ++ '"' :: tail))).drop
        ((k0 :: k').length + 2)).contains '"' = true := by
      rw [hd]; exact hcont
    have hfound := searchAttr_cons_found (k0 :: k') k0
      (k' ++ '=' :: '"' :: (v ++ '"' :: tail)) hpre h2'
    have hval : ((k0 :: (k' ++ '=' :: '"' :: (v ++ '"' :: tail))).drop
        ((k0 :: k').length + 2)).takeWhile (fun ch => !(ch == '"')) = v := by
      rw [hd]; exact takeWhile_append_quote v hv tail
    rw [hval] at hfound
    exact hfound

theorem noCiSuffix_spec {k ka : List Char} (h : noCiSuffix k ka = true) :
    ∀ i, ciEqL k (ka.drop i) = false := by
  intro i
  by_cases hi : i ≤ ka.length
  · have hb := (List.all_eq_true.mp h) i (List.mem_range.mpr (by omega))
    simpa using hb
  · have hb := (List.all_eq_true.mp h) ka.length (List.mem_range.mpr (by omega))
    have hd : ka.drop i = [] := List.drop_eq_nil_of_le (by omega)
    have hd2 : ka.drop ka.length = [] := List.drop_eq_nil_of_le (le_refl _)
    rw [hd]
    rw [hd2] at hb
    simpa using hb

theorem keyClean_parts {k : String} (h : keyClean k = true) :
    k.data ≠ [] ∧ ∀ c ∈ k.data, ciEqC c '"' = false ∧ ciEqC c '=' = false ∧
      ciEqC c ' ' = false ∧ ciEqC c ',' = false ∧ ciEqC c '#' = false := by
  rw [keyClean, Bool.and_eq_true] at h
  obtain ⟨h1, h2⟩ := h
  refine ⟨?_, ?_⟩
  · have h1' : k.data.isEmpty = false := by simpa using h1
    intro he
    rw [he] at h1'
    simp at h1'
  · intro c hc
    have hb := List.all_eq_true.mp h2 c hc
    simp only [Bool.and_eq_true, Bool.not_eq_true'] at hb
    exact ⟨hb.1.1.1.1, hb.1.1.1.2, hb.1.1.2, hb.1.2, hb.2⟩

theorem cleanVal_chars {v : String} (h : cleanVal v = true) :
    ∀ c ∈ v.data, ciEqC c '"' = false ∧ ciEqC c '=' = false ∧ ciEqC c ',' = false ∧
      ciEqC c '#' = false := by
  intro c hc
  have hb := List.all_eq_true.mp h c hc
  simp only [Bool.and_eq_true, Bool.not_eq_true'] at hb
  exact ⟨hb.1.1.1, hb.1.1.2, hb.1.2, hb.2⟩

theorem cleanName_chars {v : String} (h : cleanName v = true) :
    ∀ c ∈ v.data, ciEqC c '"' = false ∧ ciEqC c '=' = false ∧ ciEqC c '#' = false := by
  intro c hc
  have hb := List.all_eq_true.mp h c hc
  simp only [Bool.and_eq_true, Bool.not_eq_true'] at hb
  exact ⟨hb.1.1, hb.1.2, hb.2⟩

theorem searchAttr_fields (K : String) (hK : keyClean K = true) :
    ∀ (attrs : List (String × String)) (nm : String),
      (∀ kv ∈ attrs, keyClean kv.1 = true) →
      (∀ kv ∈ attrs, cleanVal kv.2 = true) →
      (∀ kv ∈ attrs, kv.1 ≠ K → noCiSuffix K.data kv.1.data = true) →
      cleanName nm = true →
      searchAttr K.data (fieldsOf attrs nm) =
        (attrs.find? (fun kv => kv.1 == K)).map (fun kv => kv.2.data) := by
  have hKp := keyClean_parts hK
  intro attrs
  induction attrs with
  | nil =>
    intro nm _ _ _ hnm
    rw [show fieldsOf [] nm = ',' :: nm.data from rfl]
    have hstep : ciPre (K.data ++ ['=', '"']) (',' :: nm.data) = false := by
      apply ciPre_no_eq_end
      intro c hc
      rcases List.mem_cons.mp hc with h | h
      · rw [h]; decide
      · exact (cleanName_chars hnm c h).2.1
    rw [searchAttr_cons_skip _ _ _ hstep]
    rw [searchAttr_none K.data nm.data (fun c hc => (cleanName_chars hnm c hc).2.1)]
    rfl
  | cons kv rest ih =>
    intro nm hkeys hvals hskip hnm
    obtain ⟨ka, v⟩ := kv
    by_cases heq : ka = K
    · subst heq
      rw [show fieldsOf ((ka, v) :: rest) nm =
        ka.data ++ '=' :: '"' :: (v.data ++ '"' :: fieldsTail rest nm) from rfl]
      rw [searchAttr_found ka.data hKp.1 v.data _
        (fun c hc => ne_of_ciEqC_false ((cleanVal_chars (hvals (ka, v) (by simp)) c hc).1))]
      rw [List.find?_cons_of_pos _ (by simp)]
      rfl
    · have hka := keyClean_parts (hkeys (ka, v) (by simp))
      have hv := cleanVal_chars (hvals (ka, v) (by simp))
      have hsuf := noCiSuffix_spec (hskip (ka, v) (by simp) heq)
      rw [show fieldsOf ((ka, v) :: rest) nm =
        ka.data ++ '=' :: '"' :: (v.data ++ '"' :: fieldsTail rest nm) from rfl]
      rw [searchAttr_skip_attr K.data (fun c hc => ⟨(hKp.2 c hc).1, (hKp.2 c hc).2.1⟩)
        ka.data (fun c hc => ⟨(hka.2 c hc).1, (hka.2 c hc).2.1⟩) hsuf
        v.data (fun c hc => (hv c hc).2.1) _]
      have hrest := ih nm (fun x hx => hkeys x (by simp [hx]))
        (fun x hx => hvals x (by simp [hx]))
        (fun x hx hne => hskip x (by simp [hx]) hne) hnm
      have hfind : ((ka, v) :: rest).find? (fun kv => kv.1 == K) =
          rest.find? (fun kv => kv.1 == K) :=
        List.find?_cons_of_neg _ (by simp [heq])
      cases rest with
      | nil =>
        rw [show fieldsTail ([] : List (String × String)) nm = fieldsOf [] nm from rfl]
        rw [hrest, hfind]
      | cons kb rest' =>
        rw [show fieldsTail (kb :: rest') nm = ' ' :: fieldsOf (kb :: rest') nm from rfl]
        have hsp : ciPre (K.data ++ ['=', '"']) (' ' :: fieldsOf (kb :: rest') nm) = false := by
          cases hke : K.data with
          | nil => exact absurd hke hKp.1
          | cons k0 k'' =>
            have h0 : ciEqC k0 ' ' = false := (hKp.2 k0 (by rw [hke]; simp)).2.2.1
            simp [ciPre, h0]
        rw [searchAttr_cons_skip _ _ _ hsp, hrest, hfind]

theorem nameSearch_quote_none (cs : List Char) (hq : quoteCommaTail cs = none) :
    nameSearch ('"' :: cs) = nameSearch cs := by
  simp only [nameSearch]
  rw [if_pos trivial, hq]

theorem nameSearch_quote_some (cs r : List Char) (hq : quoteCommaTail cs = some r) :
    nameSearch ('"' :: cs) = some r := by
  simp only [nameSearch]
  rw [if_pos trivial, hq]

theorem nameSearch_skip (u t : List Char) (hu : ∀ c ∈ u, c ≠ '"') :
    nameSearch (u ++ t) = nameSearch t := by
  induction u with
  | nil => rfl
  | cons c u' ih =>
    rw [List.cons_append]
    simp only [nameSearch]
    rw [if_neg (hu c (by simp))]
    exact ih (fun x hx => hu x (by simp [hx]))

theorem quoteCommaTail_value (v : List Char) (hv : ∀ c ∈ v, c ≠ ',') (tail : List Char) :
    quoteCommaTail (v ++ '"' :: tail) = none := by
  cases v with
  | nil =>
    cases tail with
    | nil => simp [quoteCommaTail]
    | cons t ts => simp [quoteCommaTail]
  | cons c v' =>
    cases v' with
    | nil => simp [quoteCommaTail, hv c (by simp)]
    | cons c2 v'' => simp [quoteCommaTail, hv c (by simp), hv c2 (by simp)]

theorem nameSearch_fields :
    ∀ (attrs : List (String × String)) (nm : String), attrs ≠ [] →
      (∀ kv ∈ attrs, keyClean kv.1 = true) →
      (∀ kv ∈ attrs, cleanVal kv.2 = true) →
      nameSearch (fieldsOf attrs nm) = some nm.data := by
  intro attrs
  induction attrs with
  | nil => intro nm h; exact absurd rfl h
  | cons kv rest ih =>
    intro nm _ hkeys hvals
    obtain ⟨ka, v⟩ := kv
    have hka := keyClean_parts (hkeys (ka, v) (by simp))
    have hvc := cleanVal_chars (hvals (ka, v) (by simp))
    have h1 : nameSearch (fieldsOf ((ka, v) :: rest) nm) =
        nameSearch ('"' :: (v.data ++ '"' :: fieldsTail rest nm)) := by
      rw [show fieldsOf ((ka, v) :: rest) nm =
        (ka.data ++ ['=']) ++ ('"' :: (v.data ++ '"' :: fieldsTail rest nm)) from by
          rw [List.append_assoc]; rfl]
      exact nameSearch_skip _ _ (by
        intro c hc
        rcases List.mem_append.mp hc with h | h
        · exact ne_of_ciEqC_false (hka.2 c h).1
        · simp at h; rw [h]; decide)
    have h2 : nameSearch ('"' :: (v.data ++ '"' :: fieldsTail rest nm)) =
        nameSearch (v.data ++ '"' :: fieldsTail rest nm) :=
      nameSearch_quote_none _
        (quoteCommaTail_value v.data (fun c hc => ne_of_ciEqC_false (hvc c hc).2.2.1) _)
    have h3 : nameSearch (v.data ++ '"' :: fieldsTail rest nm) =
        nameSearch ('"' :: fieldsTail rest nm) :=
      nameSearch_skip v.data _ (fun c hc => ne_of_ciEqC_false (hvc c hc).1)
    rw [h1, h2, h3]
    cases rest with
    | nil =>
      have hq : quoteCommaTail (',' :: nm.data) = some nm.data := by
        cases hd : nm.data with
        | nil => simp [quoteCommaTail]
        | cons c cs => simp [quoteCommaTail]
      rw [show fieldsTail ([] : List (String × String)) nm = ',' :: nm.data from rfl]
      exact nameSearch_quote_some _ _ hq
    | cons kb rest' =>
      obtain ⟨kb1, v2⟩ := kb
      have hkb := keyClean_parts (hkeys (kb1, v2) (by simp))
      have hq : quoteCommaTail (' ' :: fieldsOf ((kb1, v2) :: rest') nm) = none := by
        rw [show fieldsOf ((kb1, v2) :: rest') nm =
          kb1.data ++ '=' :: '"' :: (v2.data ++ '"' :: fieldsTail rest' nm) from rfl]
        cases hkd : kb1.data with
        | nil => exact absurd hkd hkb.1
        | cons c1 kd =>
          have hc1 : c1 ≠ ',' := ne_of_ciEqC_false (hkb.2 c1 (by rw [hkd]; simp)).2.2.2.1
          have hsp : (' ' : Char) ≠ ',' := by decide
          simp [quoteCommaTail, hc1, hsp]
      rw [show fieldsTail ((kb1, v2) :: rest') nm =
        ' ' :: fieldsOf ((kb1, v2) :: rest') nm from rfl]
      rw [nameSearch_quote_none _ hq]
      rw [show (' ' :: fieldsOf ((kb1, v2) :: rest') nm) =
        [' '] ++ fieldsOf ((kb1, v2) :: rest') nm from rfl]
      rw [nameSearch_skip [' '] _ (by intro c hc; simp at hc; rw [hc]; decide)]
      exact ih nm (by simp) (fun x hx => hkeys x (by simp [hx]))
        (fun x hx => hvals x (by simp [hx]))

theorem lowChar_idem (c : Char) : lowChar (lowChar c) = lowChar c := by
  have key : ∀ n : Nat, 97 ≤ n → n ≤ 122 → (Char.ofNat n).toNat = n := by
    intro n h1 h2
    have hv : n.isValidChar := Or.inl (by omega)
    show (Char.ofNat n).val.toNat = n
    rw [Char.ofNat, dif_pos hv]
    rfl
  show Char.toLower (Char.toLower c) = Char.toLower c
  unfold Char.toLower
  by_cases h : c.toNat ≥ 65 ∧ c.toNat ≤ 90
  · rw [if_pos h]
    have ht : (Char.ofNat (c.toNat + 32)).toNat = c.toNat + 32 := key _ (by omega) (by omega)
    rw [if_neg (by rw [ht]; omega)]
  · rw [if_neg h, if_neg h]

theorem ciEqC_lowChar_left (c b : Char) : ciEqC (lowChar c) b = ciEqC c b := by
  simp only [ciEqC, lowChar_idem]

theorem cleanVal_lowStr {v : String} (h : cleanVal v = true) : cleanVal (lowStr v) = true := by
  rw [cleanVal] at h ⊢
  apply List.all_eq_true.mpr
  intro c hc
  rw [show (lowStr v).data = v.data.map Char.toLower from rfl] at hc
  obtain ⟨c0, hc0, hceq⟩ := List.mem_map.mp hc
  have hb := List.all_eq_true.mp h c0 hc0
  rw [← hceq, show Char.toLower c0 = lowChar c0 from rfl]
  simp only [Bool.and_eq_true, Bool.not_eq_true'] at hb ⊢
  rw [ciEqC_lowChar_left, ciEqC_lowChar_left, ciEqC_lowChar_left, ciEqC_lowChar_left]
  exact hb

theorem digitChar_clean (d : Nat) (hd : d < 10) :
    ciEqC (Char.ofNat (48 + d)) '"' = false ∧ ciEqC (Char.ofNat (48 + d)) '=' = false ∧
    ciEqC (Char.ofNat (48 + d)) ',' = false ∧ ciEqC (Char.ofNat (48 + d)) '#' = false := by
  interval_cases d <;> exact (by decide)

theorem natDigits_chars :
    ∀ (fuel n : Nat) (c : Char), c ∈ natDigits fuel n → ∃ d, d < 10 ∧ c = Char.ofNat (48 + d) := by
  intro fuel
  induction fuel with
  | zero => intro n c hc; simp [natDigits] at hc
  | succ f ih =>
    intro n c hc
    rw [natDigits] at hc
    by_cases hn : n < 10
    · rw [if_pos hn] at hc
      simp at hc
      exact ⟨n, hn, hc⟩
    · rw [if_neg hn] at hc
      rcases List.mem_append.mp hc with h | h
      · exact ih (n / 10) c h
      · simp at h
        exact ⟨n % 10, by omega, h⟩

theorem cleanVal_natStr (n : Nat) : cleanVal (natStr n) = true := by
  apply List.all_eq_true.mpr
  intro c hc
  rw [show (natStr n).data = natDigits (n + 1) n from rfl] at hc
  obtain ⟨d, hd, hceq⟩ := natDigits_chars (n + 1) n c hc
  obtain ⟨h1, h2, h3, h4⟩ := digitChar_clean d hd
  rw [hceq]
  simp [h1, h2, h3, h4]

theorem cleanVal_intStr (n : Int) : cleanVal (intStr n) = true := by
  rw [intStr]
  by_cases hn : n < 0
  · rw [if_pos hn]
    apply List.all_eq_true.mpr
    intro c hc
    rw [String.data_append] at hc
    rcases List.mem_append.mp hc with h | h
    · simp at h
      rw [h]
      decide
    · exact List.all_eq_true.mp (cleanVal_natStr n.natAbs) c h
  · rw [if_neg hn]
    exact cleanVal_natStr n.toNat

theorem optAttr_key {α : Type} {k : String} {f : α → String} {o : Option α}
    {kv : String × String} (h : kv ∈ optAttr k f o) : kv.1 = k := by
  cases o with
  | none => simp [optAttr] at h
  | some x => simp [optAttr] at h; rw [h]

theorem optAttr_val {α : Type} {k : String} {f : α → String} {o : Option α}
    {kv : String × String} (h : kv ∈ optAttr k f o) : ∃ x, o = some x ∧ kv.2 = f x := by
  cases o with
  | none => simp [optAttr] at h
  | some x => simp [optAttr] at h; exact ⟨x, rfl, by rw [h]⟩

theorem find?_optAttr_self (K : String) {α : Type} (f : α → String) (o : Option α) :
    (optAttr K f o).find? (fun kv => kv.1 == K) = o.map (fun x => (K, f x)) := by
  cases o <;> simp [optAttr]

theorem find?_optAttr_other (K k2 : String) (h : k2 ≠ K) {α : Type} (f : α → String)
    (o : Option α) :
    (optAttr k2 f o).find? (fun kv => kv.1 == K) = none := by
  cases o <;> simp [optAttr, h]

theorem find?_single_self (K v : String) :
    ([(K, v)] : List (String × String)).find? (fun kv => kv.1 == K) = some (K, v) := by
  simp

theorem find?_single_other (K k2 : String) (h : k2 ≠ K) (v : String) :
    ([(k2, v)] : List (String × String)).find? (fun kv => kv.1 == K) = none := by
  simp [h]

theorem metaAttrs_keys (args : Args) (e : M3uItem) (chnum : Option Int) (logo : Option String) :
    ∀ kv ∈ metaAttrs args e chnum logo,
      kv.1 = "tvh-chnum" ∨ kv.1 = "tvg-id" ∨ kv.1 = "tvg-name" ∨ kv.1 = "tvg-logo" ∨
      kv.1 = "group-title" ∨ kv.1 = "timeshift" ∨ kv.1 = "catchup-days" ∨
      kv.1 = "catchup" ∨ kv.1 = "catchup-source" := by
  intro kv hkv
  simp only [metaAttrs, List.mem_append] at hkv
  rcases hkv with ((((((((h | h) | h) | h) | h) | h) | h) | h) | h)
  · exact Or.inl (optAttr_key h)
  · exact Or.inr (Or.inl (optAttr_key h))
  · refine Or.inr (Or.inr (Or.inl ?_))
    simp at h; rw [h]
  · exact Or.inr (Or.inr (Or.inr (Or.inl (optAttr_key h))))
  · exact Or.inr (Or.inr (Or.inr (Or.inr (Or.inl (optAttr_key h)))))
  · exact Or.inr (Or.inr (Or.inr (Or.inr (Or.inr (Or.inl (optAttr_key h))))))
  · exact Or.inr (Or.inr (Or.inr (Or.inr (Or.inr (Or.inr (Or.inl (optAttr_key h)))))))
  · exact Or.inr (Or.inr (Or.inr (Or.inr (Or.inr (Or.inr (Or.inr (Or.inl (optAttr_key h))))))))
  · exact Or.inr (Or.inr (Or.inr (Or.inr (Or.inr (Or.inr (Or.inr (Or.inr (optAttr_key h))))))))

theorem metaAttrs_keyClean (args : Args) (e : M3uItem) (chnum : Option Int)
    (logo : Option String) :
    ∀ kv ∈ metaAttrs args e chnum logo, keyClean kv.1 = true := by
  intro kv hkv
  rcases metaAttrs_keys args e chnum logo kv hkv with h | h | h | h | h | h | h | h | h <;>
    rw [h] <;> decide

theorem metaAttrs_skip (K : String)
    (hK : K = "tvh-chnum" ∨ K = "tvg-id" ∨ K = "tvg-name" ∨ K = "tvg-logo" ∨
      K = "group-title" ∨ K = "timeshift" ∨ K = "catchup-days" ∨ K = "catchup" ∨
      K = "catchup-source")
    (args : Args) (e : M3uItem) (chnum : Option Int) (logo : Option String) :
    ∀ kv ∈ metaAttrs args e chnum logo, kv.1 ≠ K → noCiSuffix K.data kv.1.data = true := by
  intro kv hkv hne
  rcases hK with hk | hk | hk | hk | hk | hk | hk | hk | hk <;>
    rcases metaAttrs_keys args e chnum logo kv hkv with h | h | h | h | h | h | h | h | h <;>
    first
      | exact absurd (h.trans hk.symm) hne
      | (rw [hk, h]; decide)


theorem findA_tvgName (args : Args) (e : M3uItem) (chnum : Option Int) (logo : Option String) :
    (metaAttrs args e chnum logo).find? (fun kv => kv.1 == "tvg-name") =
      some ("tvg-name", pyStr e.tvg_name) := by
  simp only [metaAttrs, List.find?_append,
    find?_optAttr_other "tvg-name" "tvh-chnum" (by decide),
    find?_optAttr_other "tvg-name" "tvg-id" (by decide),
    find?_single_self "tvg-name",
    find?_optAttr_other "tvg-name" "tvg-logo" (by decide),
    find?_optAttr_other "tvg-name" "group-title" (by decide),
    find?_optAttr_other "tvg-name" "timeshift" (by decide),
    find?_optAttr_other "tvg-name" "catchup-days" (by decide),
    find?_optAttr_other "tvg-name" "catchup" (by decide),
    find?_optAttr_other "tvg-name" "catchup-source" (by decide),
    Option.none_or, Option.or_none]

theorem findA_tvgId (args : Args) (e : M3uItem) (chnum : Option Int) (logo : Option String) :
    (metaAttrs args e chnum logo).find? (fun kv => kv.1 == "tvg-id") =
      e.tvg_id.map (fun i => ("tvg-id", if !args.preserve_case then lowStr i else i)) := by
  simp only [metaAttrs, List.find?_append,
    find?_optAttr_other "tvg-id" "tvh-chnum" (by decide),
    find?_optAttr_self "tvg-id",
    find?_single_other "tvg-id" "tvg-name" (by decide),
    find?_optAttr_other "tvg-id" "tvg-logo" (by decide),
    find?_optAttr_other "tvg-id" "group-title" (by decide),
    find?_optAttr_other "tvg-id" "timeshift" (by decide),
    find?_optAttr_other "tvg-id" "catchup-days" (by decide),
    find?_optAttr_other "tvg-id" "catchup" (by decide),
    find?_optAttr_other "tvg-id" "catchup-source" (by decide),
    Option.none_or, Option.or_none]

theorem findA_tvgLogo (args : Args) (e : M3uItem) (chnum : Option Int) (logo : Option String) :
    (metaAttrs args e chnum logo).find? (fun kv => kv.1 == "tvg-logo") =
      logo.map (fun l => ("tvg-logo", l)) := by
  simp only [metaAttrs, List.find?_append,
    find?_optAttr_other "tvg-logo" "tvh-chnum" (by decide),
    find?_optAttr_other "tvg-logo" "tvg-id" (by decide),
    find?_single_other "tvg-logo" "tvg-name" (by decide),
    find?_optAttr_self "tvg-logo",
    find?_optAttr_other "tvg-logo" "group-title" (by decide),
    find?_optAttr_other "tvg-logo" "timeshift" (by decide),
    find?_optAttr_other "tvg-logo" "catchup-days" (by decide),
    find?_optAttr_other "tvg-logo" "catchup" (by decide),
    find?_optAttr_other "tvg-logo" "catchup-source" (by decide),
    Option.none_or, Option.or_none]

theorem findA_groupTitle (args : Args) (e : M3uItem) (chnum : Option Int) (logo : Option String) :
    (metaAttrs args e chnum logo).find? (fun kv => kv.1 == "group-title") =
      e.group_title.map (fun g => ("group-title", g)) := by
  simp only [metaAttrs, List.find?_append,
    find?_optAttr_other "group-title" "tvh-chnum" (by decide),
    find?_optAttr_other "group-title" "tvg-id" (by decide),
    find?_single_other "group-title" "tvg-name" (by decide),
    find?_optAttr_other "group-title" "tvg-logo" (by decide),
    find?_optAttr_self "group-title",
    find?_optAttr_other "group-title" "timeshift" (by decide),
    find?_optAttr_other "group-title" "catchup-days" (by decide),
    find?_optAttr_other "group-title" "catchup" (by decide),
    find?_optAttr_other "group-title" "catchup-source" (by decide),
    Option.none_or, Option.or_none]

theorem findA_timeshift (args : Args) (e : M3uItem) (chnum : Option Int) (logo : Option String) :
    (metaAttrs args e chnum logo).find? (fun kv => kv.1 == "timeshift") =
      e.timeshift.map (fun t => ("timeshift", t)) := by
  simp only [metaAttrs, List.find?_append,
    find?_optAttr_other "timeshift" "tvh-chnum" (by decide),
    find?_optAttr_other "timeshift" "tvg-id" (by decide),
    find?_single_other "timeshift" "tvg-name" (by decide),
    find?_optAttr_other "timeshift" "tvg-logo" (by decide),
    find?_optAttr_other "timeshift" "group-title" (by decide),
    find?_optAttr_self "timeshift",
    find?_optAttr_other "timeshift" "catchup-days" (by decide),
    find?_optAttr_other "timeshift" "catchup" (by decide),
    find?_optAttr_other "timeshift" "catchup-source" (by decide),
    Option.none_or, Option.or_none]

theorem findA_catchupDays (args : Args) (e : M3uItem) (chnum : Option Int) (logo : Option String) :
    (metaAttrs args e chnum logo).find? (fun kv => kv.1 == "catchup-days") =
      e.catchup_days.map (fun c => ("catchup-days", c)) := by
  simp only [metaAttrs, List.find?_append,
    find?_optAttr_other "catchup-days" "tvh-chnum" (by decide),
    find?_optAttr_other "catchup-days" "tvg-id" (by decide),
    find?_single_other "catchup-days" "tvg-name" (by decide),
    find?_optAttr_other "catchup-days" "tvg-logo" (by decide),
    find?_optAttr_other "catchup-days" "group-title" (by decide),
    find?_optAttr_other "catchup-days" "timeshift" (by decide),
    find?_optAttr_self "catchup-days",
    find?_optAttr_other "catchup-days" "catchup" (by decide),
    find?_optAttr_other "catchup-days" "catchup-source" (by decide),
    Option.none_or, Option.or_none]

theorem findA_catchup (args : Args) (e : M3uItem) (chnum : Option Int) (logo : Option String) :
    (metaAttrs args e chnum logo).find? (fun kv => kv.1 == "catchup") =
      e.catchup.map (fun c => ("catchup", c)) := by
  simp only [metaAttrs, List.find?_append,
    find?_optAttr_other "catchup" "tvh-chnum" (by decide),
    find?_optAttr_other "catchup" "tvg-id" (by decide),
    find?_single_other "catchup" "tvg-name" (by decide),
    find?_optAttr_other "catchup" "tvg-logo" (by decide),
    find?_optAttr_other "catchup" "group-title" (by decide),
    find?_optAttr_other "catchup" "timeshift" (by decide),
    find?_optAttr_other "catchup" "catchup-days" (by decide),
    find?_optAttr_self "catchup",
    find?_optAttr_other "catchup" "catchup-source" (by decide),
    Option.none_or, Option.or_none]

theorem findA_catchupSource (args : Args) (e : M3uItem) (chnum : Option Int) (logo : Option String) :
    (metaAttrs args e chnum logo).find? (fun kv => kv.1 == "catchup-source") =
      e.catchup_source.map (fun c => ("catchup-source", c)) := by
  simp only [metaAttrs, List.find?_append,
    find?_optAttr_other "catchup-source" "tvh-chnum" (by decide),
    find?_optAttr_other "catchup-source" "tvg-id" (by decide),
    find?_single_other "catchup-source" "tvg-name" (by decide),
    find?_optAttr_other "catchup-source" "tvg-logo" (by decide),
    find?_optAttr_other "catchup-source" "group-title" (by decide),
    find?_optAttr_other "catchup-source" "timeshift" (by decide),
    find?_optAttr_other "catchup-source" "catchup-days" (by decide),
    find?_optAttr_other "catchup-source" "catchup" (by decide),
    find?_optAttr_self "catchup-source",
    Option.none_or, Option.or_none]

theorem renderAttrs_data :
    ∀ (attrs : List (String × String)) (nm : String),
      (renderAttrs attrs).data ++ ',' :: nm.data = fieldsTail attrs nm := by
  intro attrs
  induction attrs with
  | nil => intro nm; rfl
  | cons kv rest ih =>
    intro nm
    obtain ⟨k, v⟩ := kv
    rw [show renderAttrs ((k, v) :: rest) = renderAttr (k, v) ++ renderAttrs rest from rfl]
    rw [show fieldsTail ((k, v) :: rest) nm =
      ' ' :: (k.data ++ '=' :: '"' :: (v.data ++ '"' :: fieldsTail rest nm)) from rfl]
    rw [← ih nm]
    simp [renderAttr, String.data_append, List.append_assoc]

theorem metaLineOf_data (args : Args) (e : M3uItem) (chnum : Option Int) :
    (metaLineOf args e chnum).data =
      "#EXTINF:-1".data ++
        fieldsTail (metaAttrs args e chnum (logoPolicy args e)) (pyStr e.name) := by
  rw [metaLineOf]
  rw [String.data_append, String.data_append, String.data_append]
  rw [List.append_assoc, List.append_assoc]
  rw [show ("," : String).data ++ (pyStr e.name).data = ',' :: (pyStr e.name).data from rfl]
  rw [renderAttrs_data]

theorem isPrefixOf_append_self : ∀ (a t : List Char), a.isPrefixOf (a ++ t) = true := by
  intro a
  induction a with
  | nil => intro t; cases t <;> rfl
  | cons x a' ih => intro t; simp [List.isPrefixOf, ih]

theorem isPrefixOf_append_of_le :
    ∀ (p s t : List Char), p.length ≤ s.length → p.isPrefixOf (s ++ t) = p.isPrefixOf s := by
  intro p
  induction p with
  | nil => intro s t _; cases s <;> cases t <;> rfl
  | cons a p' ih =>
    intro s t h
    cases s with
    | nil => simp at h
    | cons b s' =>
      show (a == b && p'.isPrefixOf (s' ++ t)) = (a == b && p'.isPrefixOf s')
      rw [ih s' t (by simpa using h)]

theorem isPrefixOf_mem :
    ∀ (p s : List Char), p.isPrefixOf s = true → ∀ c ∈ p, c ∈ s := by
  intro p
  induction p with
  | nil => intro s _ c hc; simp at hc
  | cons a p' ih =>
    intro s h c hc
    cases s with
    | nil => simp [List.isPrefixOf] at h
    | cons b s' =>
      rw [show (a :: p').isPrefixOf (b :: s') = (a == b && p'.isPrefixOf s') from rfl,
        Bool.and_eq_true] at h
      obtain ⟨hab, hps⟩ := h
      rcases List.mem_cons.mp hc with h1 | h1
      · rw [h1, beq_iff_eq.mp hab]; simp
      · exact List.mem_cons_of_mem b (ih s' hps c h1)

theorem findSubIdx_none (sep : List Char) (c : Char) (hc : c ∈ sep) :
    ∀ (s : List Char), c ∉ s → findSubIdx sep s = none := by
  intro s
  induction s with
  | nil =>
    intro _
    cases hsep : sep with
    | nil => rw [hsep] at hc; simp at hc
    | cons a s' => simp [findSubIdx]
  | cons b s' ih =>
    intro hs
    have hpref : sep.isPrefixOf (b :: s') = false := by
      cases hv : sep.isPrefixOf (b :: s') with
      | true => exact absurd (isPrefixOf_mem sep (b :: s') hv c hc) hs
      | false => rfl
    rw [findSubIdx, if_neg (by simp [hpref]), ih (fun hmem => hs (List.mem_cons_of_mem b hmem))]
    rfl

theorem findSubIdx_self (sep t : List Char) (hsep : sep ≠ []) :
    findSubIdx sep (sep ++ t) = some 0 := by
  cases hke : sep with
  | nil => exact absurd hke hsep
  | cons a s' =>
    rw [List.cons_append, findSubIdx,
      if_pos (by rw [← List.cons_append]; exact isPrefixOf_append_self (a :: s') t)]

theorem splitPart1_header (sep F : List Char) (hsep : sep ≠ [])
    (c : Char) (hc1 : c ∈ sep) (hc2 : c ∉ F) :
    splitPart1 sep (sep ++ F) = some F := by
  rw [splitPart1, findSubIdx_self sep F hsep]
  simp only [Nat.zero_add, List.drop_left]
  rw [findSubIdx_none sep c hc1 F hc2]

theorem fieldsTail_chars (rest : List (String × String)) (nm : String) (c : Char)
    (h : c ∈ fieldsTail rest nm) : c = ' ' ∨ c ∈ fieldsOf rest nm := by
  cases rest with
  | nil => exact Or.inr h
  | cons kv rest' =>
    obtain ⟨k, v⟩ := kv
    rcases List.mem_cons.mp h with h1 | h1
    · exact Or.inl h1
    · exact Or.inr h1

theorem fieldsOf_no_hash :
    ∀ (attrs : List (String × String)) (nm : String),
      (∀ kv ∈ attrs, keyClean kv.1 = true) →
      (∀ kv ∈ attrs, cleanVal kv.2 = true) →
      cleanName nm = true →
      ∀ c ∈ fieldsOf attrs nm, c ≠ '#' := by
  intro attrs
  induction attrs with
  | nil =>
    intro nm _ _ hnm c hc
    rcases List.mem_cons.mp hc with h | h
    · rw [h]; decide
    · exact ne_of_ciEqC_false (cleanName_chars hnm c h).2.2
  | cons kv rest ih =>
    intro nm hkeys hvals hnm c hc
    obtain ⟨ka, v⟩ := kv
    have hka := keyClean_parts (hkeys (ka, v) (by simp))
    have hv := cleanVal_chars (hvals (ka, v) (by simp))
    rw [show fieldsOf ((ka, v) :: rest) nm =
      ka.data ++ '=' :: '"' :: (v.data ++ '"' :: fieldsTail rest nm) from rfl] at hc
    rcases List.mem_append.mp hc with h | h
    · exact ne_of_ciEqC_false (hka.2 c h).2.2.2.2
    · rcases List.mem_cons.mp h with h1 | h1
      · rw [h1]; decide
      · rcases List.mem_cons.mp h1 with h2 | h2
        · rw [h2]; decide
        · rcases List.mem_append.mp h2 with h3 | h3
          · exact ne_of_ciEqC_false (hv c h3).2.2.2
          · rcases List.mem_cons.mp h3 with h4 | h4
            · rw [h4]; decide
            · rcases fieldsTail_chars rest nm c h4 with h5 | h5
              · rw [h5]; decide
              · exact ih nm (fun x hx => hkeys x (by simp [hx]))
                  (fun x hx => hvals x (by simp [hx])) hnm c h5

theorem logoPolicy_cases (args : Args) (e : M3uItem) (l : String)
    (h : logoPolicy args e = some l) : l = "" ∨ e.tvg_logo = some l := by
  rw [logoPolicy] at h
  by_cases hc : (args.http_for_images && e.tvg_logo.isSome) = true
  · rw [if_pos hc] at h
    cases hl : e.tvg_logo with
    | none => rw [hl] at h; simp at h
    | some l0 =>
      rw [hl] at h
      simp only [Option.map_some'] at h
      have heq := Option.some.inj h
      by_cases hp : ("http".data.isPrefixOf l0.data) = true
      · rw [if_pos hp] at heq
        right
        rw [heq]
      · rw [if_neg hp] at heq
        left
        exact heq.symm
  · rw [if_neg hc] at h
    right
    exact h

theorem metaAttrs_cleanVal (args : Args) (e : M3uItem) (chnum : Option Int)
    (n g : String)
    (hname : e.tvg_name = some n) (hn2 : cleanVal n = true)
    (hgroup : e.group_title = some g) (hg2 : cleanVal g = true)
    (hid : ∀ i, e.tvg_id = some i → cleanVal i = true)
    (hlogo : ∀ l, e.tvg_logo = some l → cleanVal l = true)
    (hts : ∀ t, e.timeshift = some t → cleanVal t = true)
    (hcd : ∀ c, e.catchup_days = some c → cleanVal c = true)
    (hcu : ∀ c, e.catchup = some c → cleanVal c = true)
    (hcs : ∀ c, e.catchup_source = some c → cleanVal c = true) :
    ∀ kv ∈ metaAttrs args e chnum (logoPolicy args e), cleanVal kv.2 = true := by
  intro kv hkv
  simp only [metaAttrs, List.mem_append] at hkv
  rcases hkv with ((((((((h | h) | h) | h) | h) | h) | h) | h) | h)
  · obtain ⟨x, _, hv2⟩ := optAttr_val h
    rw [hv2]
    exact cleanVal_intStr x
  · obtain ⟨i, ho, hv2⟩ := optAttr_val h
    rw [hv2]
    by_cases hp : (!args.preserve_case) = true
    · rw [if_pos hp]; exact cleanVal_lowStr (hid i ho)
    · rw [if_neg hp]; exact hid i ho
  · have hv2 : kv.2 = pyStr e.tvg_name := by simp at h; rw [h]
    rw [hv2, hname]
    exact hn2
  · obtain ⟨l, ho, hv2⟩ := optAttr_val h
    rw [hv2]
    rcases logoPolicy_cases args e l ho with h1 | h1
    · rw [h1]; decide
    · exact hlogo l h1
  · obtain ⟨x, ho, hv2⟩ := optAttr_val h
    rw [hv2]
    rw [hgroup] at ho
    rw [← Option.some.inj ho]
    exact hg2
  · obtain ⟨x, ho, hv2⟩ := optAttr_val h
    rw [hv2]
    exact hts x ho
  · obtain ⟨x, ho, hv2⟩ := optAttr_val h
    rw [hv2]
    exact hcd x ho
  · obtain ⟨x, ho, hv2⟩ := optAttr_val h
    rw [hv2]
    exact hcu x ho
  · obtain ⟨x, ho, hv2⟩ := optAttr_val h
    rw [hv2]
    exact hcs x ho

theorem lowStr_ne_empty {i : String} (h : i ≠ "") : lowStr i ≠ "" := by
  intro he
  apply h
  have hd : (lowStr i).data = [] := by rw [he]
  have hd2 : i.data.map Char.toLower = [] := hd
  have hd3 : i.data = [] := List.map_eq_nil_iff.mp hd2
  obtain ⟨d⟩ := i
  have hd4 : d = [] := hd3
  rw [hd4]

theorem map_data_mk (o : Option (String × String)) :
    (o.map (fun kv => kv.2.data)).map (fun l => String.mk l) = o.map (fun kv => kv.2) := by
  cases o <;> rfl

theorem map_pair_snd {α : Type} (o : Option α) (K : String) (f : α → String) :
    (o.map (fun x => (K, f x))).map (fun kv => kv.2) = o.map f := by
  cases o <;> rfl

theorem map_id_opt (o : Option String) : o.map (fun l => l) = o := by
  cases o <;> rfl

/-- C9 (amended): parsing the playlist serialization of a surviving entry
whose serialized values are well-formed (no character case-folding to a
quote, equals sign, comma or hash in attribute values; display text, group
and tvg-name present and clean; non-empty url) reproduces the entry exactly,
except that the channel identifier is case-ruled by `preserve_case` and the
logo passes through the `http_for_images` logo policy; the parsed entry
carries the freshly initialised ordering ranks. -/
theorem C9_roundtrip (args : Args) (rx : Rx) (rsub : Rsub) (entries : List M3uItem)
    (e : M3uItem) (chnum : Option Int) (n g nm u : String)
    (hsurv : e ∈ filter_m3u_entries args rx rsub entries)
    (hname : e.tvg_name = some n) (hn1 : n ≠ "") (hn2 : cleanVal n = true)
    (hgroup : e.group_title = some g) (hg1 : g ≠ "") (hg2 : cleanVal g = true)
    (hnm : e.name = some nm) (hnm2 : cleanName nm = true)
    (hurl : e.url = some u) (hu1 : u ≠ "")
    (hid : ∀ i, e.tvg_id = some i → cleanVal i = true)
    (hidreq : args.no_tvg_id = true ∨ ∃ i, e.tvg_id = some i ∧ i ≠ "")
    (hlogo : ∀ l, e.tvg_logo = some l → cleanVal l = true)
    (hts : ∀ t, e.timeshift = some t → cleanVal t = true)
    (hcd : ∀ c, e.catchup_days = some c → cleanVal c = true)
    (hcu : ∀ c, e.catchup = some c → cleanVal c = true)
    (hcs : ∀ c, e.catchup_source = some c → cleanVal c = true) :
    parseRecord args.no_tvg_id (metaLineOf args e chnum) (pyStr e.url) =
      some { e with
        tvg_id := e.tvg_id.map (fun i => if !args.preserve_case then lowStr i else i),
        tvg_logo := logoPolicy args e,
        group_idx := 0,
        channel_idx := sysMaxsize } := by
  have hA3 : ("tvg-name", pyStr e.tvg_name) ∈ metaAttrs args e chnum (logoPolicy args e) := by
    simp [metaAttrs, optAttr]
  cases hAc : metaAttrs args e chnum (logoPolicy args e) with
  | nil => rw [hAc] at hA3; simp at hA3
  | cons a rest =>
  have hkeysA := metaAttrs_keyClean args e chnum (logoPolicy args e)
  have hvalsA := metaAttrs_cleanVal args e chnum n g hname hn2 hgroup hg2 hid hlogo hts hcd hcu hcs
  have hnm' : cleanName (pyStr e.name) = true := by rw [hnm]; exact hnm2
  have hkeys' : ∀ kv ∈ a :: rest, keyClean kv.1 = true := by rw [← hAc]; exact hkeysA
  have hvals' : ∀ kv ∈ a :: rest, cleanVal kv.2 = true := by rw [← hAc]; exact hvalsA
  have hskip' : ∀ K : String,
      (K = "tvh-chnum" ∨ K = "tvg-id" ∨ K = "tvg-name" ∨ K = "tvg-logo" ∨ K = "group-title" ∨
       K = "timeshift" ∨ K = "catchup-days" ∨ K = "catchup" ∨ K = "catchup-source") →
      ∀ kv ∈ a :: rest, kv.1 ≠ K → noCiSuffix K.data kv.1.data = true := by
    intro K hK
    rw [← hAc]
    exact metaAttrs_skip K hK args e chnum (logoPolicy args e)
  have hmeta : (metaLineOf args e chnum).data =
      "#EXTINF:-1 ".data ++ fieldsOf (a :: rest) (pyStr e.name) := by
    rw [metaLineOf_data, hAc]
    rw [show fieldsTail (a :: rest) (pyStr e.name) =
      ' ' :: fieldsOf (a :: rest) (pyStr e.name) from rfl]
    rw [show ("#EXTINF:-1 " : String).data =
      ("#EXTINF:-1" : String).data ++ [' '] from rfl]
    rw [List.append_assoc]
    rfl
  have hpre1 : ("#EXTINF:".data.isPrefixOf (metaLineOf args e chnum).data) = true := by
    rw [hmeta, show ("#EXTINF:-1 " : String).data =
      ("#EXTINF:" : String).data ++ ("-1 " : String).data from rfl, List.append_assoc]
    exact isPrefixOf_append_self _ _
  have hpre0 : ("#EXTINF:0".data.isPrefixOf (metaLineOf args e chnum).data) = false := by
    rw [hmeta, isPrefixOf_append_of_le _ _ _ (by decide)]
    decide
  have hhash : '#' ∉ fieldsOf (a :: rest) (pyStr e.name) := by
    intro hmem
    exact fieldsOf_no_hash (a :: rest) (pyStr e.name) hkeys' hvals' hnm' '#' hmem rfl
  have hsplit : splitPart1 "#EXTINF:-1 ".data (metaLineOf args e chnum).data =
      some (fieldsOf (a :: rest) (pyStr e.name)) := by
    rw [hmeta]
    exact splitPart1_header _ _ (by decide) '#' (by decide) hhash
  have hget : ∀ K : String, keyClean K = true →
      (K = "tvh-chnum" ∨ K = "tvg-id" ∨ K = "tvg-name" ∨ K = "tvg-logo" ∨ K = "group-title" ∨
       K = "timeshift" ∨ K = "catchup-days" ∨ K = "catchup" ∨ K = "catchup-source") →
      (searchAttr K.data (fieldsOf (a :: rest) (pyStr e.name))).map (fun l => String.mk l) =
        ((metaAttrs args e chnum (logoPolicy args e)).find?
          (fun kv => kv.1 == K)).map (fun kv => kv.2) := by
    intro K hkc hKor
    rw [searchAttr_fields K hkc (a :: rest) (pyStr e.name) hkeys' hvals' (hskip' K hKor) hnm']
    rw [← hAc]
    exact map_data_mk _
  have hTN : (searchAttr "tvg-name".data (fieldsOf (a :: rest) (pyStr e.name))).map
      (fun l => String.mk l) = some n := by
    rw [hget "tvg-name" (by decide) (Or.inr (Or.inr (Or.inl rfl)))]
    rw [findA_tvgName args e chnum (logoPolicy args e)]
    rw [hname]
    rfl
  have hTI : (searchAttr "tvg-id".data (fieldsOf (a :: rest) (pyStr e.name))).map
      (fun l => String.mk l) =
      e.tvg_id.map (fun i => if !args.preserve_case then lowStr i else i) := by
    rw [hget "tvg-id" (by decide) (Or.inr (Or.inl rfl))]
    rw [findA_tvgId args e chnum (logoPolicy args e)]
    exact map_pair_snd _ _ _
  have hTL : (searchAttr "tvg-logo".data (fieldsOf (a :: rest) (pyStr e.name))).map
      (fun l => String.mk l) = logoPolicy args e := by
    rw [hget "tvg-logo" (by decide) (Or.inr (Or.inr (Or.inr (Or.inl rfl))))]
    rw [findA_tvgLogo args e chnum (logoPolicy args e)]
    rw [map_pair_snd (logoPolicy args e) "tvg-logo" (fun l => l)]
    exact map_id_opt _
  have hGT : (searchAttr "group-title".data (fieldsOf (a :: rest) (pyStr e.name))).map
      (fun l => String.mk l) = e.group_title := by
    rw [hget "group-title" (by decide) (Or.inr (Or.inr (Or.inr (Or.inr (Or.inl rfl)))))]
    rw [findA_groupTitle args e chnum (logoPolicy args e)]
    rw [map_pair_snd e.group_title "group-title" (fun g => g)]
    exact map_id_opt _
  have hTS : (searchAttr "timeshift".data (fieldsOf (a :: rest) (pyStr e.name))).map
      (fun l => String.mk l) = e.timeshift := by
    rw [hget "timeshift" (by decide)
      (Or.inr (Or.inr (Or.inr (Or.inr (Or.inr (Or.inl rfl))))))]
    rw [findA_timeshift args e chnum (logoPolicy args e)]
    rw [map_pair_snd e.timeshift "timeshift" (fun t => t)]
    exact map_id_opt _
  have hCD : (searchAttr "catchup-days".data (fieldsOf (a :: rest) (pyStr e.name))).map
      (fun l => String.mk l) = e.catchup_days := by
    rw [hget "catchup-days" (by decide)
      (Or.inr (Or.inr (Or.inr (Or.inr (Or.inr (Or.inr (Or.inl rfl)))))))]
    rw [findA_catchupDays args e chnum (logoPolicy args e)]
    rw [map_pair_snd e.catchup_days "catchup-days" (fun c => c)]
    exact map_id_opt _
  have hCU : (searchAttr "catchup".data (fieldsOf (a :: rest) (pyStr e.name))).map
      (fun l => String.mk l) = e.catchup := by
    rw [hget "catchup" (by decide)
      (Or.inr (Or.inr (Or.inr (Or.inr (Or.inr (Or.inr (Or.inr (Or.inl rfl))))))))]
    rw [findA_catchup args e chnum (logoPolicy args e)]
    rw [map_pair_snd e.catchup "catchup" (fun c => c)]
    exact map_id_opt _
  have hCS : (searchAttr "catchup-source".data (fieldsOf (a :: rest) (pyStr e.name))).map
      (fun l => String.mk l) = e.catchup_source := by
    rw [hget "catchup-source" (by decide)
      (Or.inr (Or.inr (Or.inr (Or.inr (Or.inr (Or.inr (Or.inr (Or.inr rfl))))))))]
    rw [findA_catchupSource args e chnum (logoPolicy args e)]
    rw [map_pair_snd e.catchup_source "catchup-source" (fun c => c)]
    exact map_id_opt _
  have hNM : (nameSearch (fieldsOf (a :: rest) (pyStr e.name))).map
      (fun l => String.mk l) = some nm := by
    rw [nameSearch_fields (a :: rest) (pyStr e.name) (by simp) hkeys' hvals']
    rw [hnm]
    rfl
  have hmk : mkM3uItem (String.mk (fieldsOf (a :: rest) (pyStr e.name))) =
      { tvg_name := some n,
        tvg_id := e.tvg_id.map (fun i => if !args.preserve_case then lowStr i else i),
        tvg_logo := logoPolicy args e,
        group_title := e.group_title,
        timeshift := e.timeshift,
        catchup_days := e.catchup_days,
        catchup := e.catchup,
        catchup_source := e.catchup_source,
        name := some nm,
        url := none } := by
    simp only [mkM3uItem]
    rw [hTN, hTI, hTL, hGT, hTS, hCD, hCU, hCS, hNM]
    have hc : ((some n == (none : Option String)) || (some n == some "")) = false := by
      simp [hn1]
    rw [if_neg (by rw [hc]; simp)]
  have hu' : pyStr e.url = u := by rw [hurl]; rfl
  rw [hu']
  simp only [parseRecord, hpre1, hpre0, Bool.not_true, Bool.false_eq_true, if_false, hsplit]
  rw [if_neg hu1]
  rw [hmk]
  have hvalid : M3uItem.is_valid
      { tvg_name := some n,
        tvg_id := e.tvg_id.map (fun i => if !args.preserve_case then lowStr i else i),
        tvg_logo := logoPolicy args e,
        group_title := e.group_title,
        timeshift := e.timeshift,
        catchup_days := e.catchup_days,
        catchup := e.catchup,
        catchup_source := e.catchup_source,
        name := some nm,
        url := some u } args.no_tvg_id = true := by
    have hne' : (∀ i, e.tvg_id = some i → i ≠ "" →
        (if args.preserve_case = false then lowStr i else i) ≠ "") := by
      intro i _ hine
      by_cases hp : args.preserve_case = false
      · rw [if_pos hp]; exact lowStr_ne_empty hine
      · rw [if_neg hp]; exact hine
    rcases hidreq with hno | ⟨i, hi, hine⟩
    · simp [M3uItem.is_valid, hno, hgroup, hn1, hg1]
    · simp [M3uItem.is_valid, hi, hgroup, hn1, hg1, hne' i hi hine]
  rw [if_pos hvalid]
  rw [hname, hgroup, hnm, hurl]

def cArgsC9w : Args := { groupmode := "keep", groups := ["News"], preserve_case := true }

def cEntC9w : M3uItem :=
  { tvg_name := some "BBC One", tvg_id := some "BBC1", tvg_logo := some "http://logo.png",
    group_title := some "News", timeshift := some "1", catchup_days := some "3",
    catchup := some "x", catchup_source := some "s",
    name := some "BBC One", url := some "http://u/1" }

/-- Witness for C9: a fully-populated clean entry, with case preservation on,
survives a keep-mode filter and round-trips through serialization with
channel number 42. -/
theorem C9_roundtrip_witness :
    cEntC9w ∈ filter_m3u_entries cArgsC9w rxNever rsubId [cEntC9w] ∧
    parseRecord cArgsC9w.no_tvg_id (metaLineOf cArgsC9w cEntC9w (some 42))
        (pyStr cEntC9w.url) =
      some { cEntC9w with
        tvg_id := cEntC9w.tvg_id.map
          (fun i => if !cArgsC9w.preserve_case then lowStr i else i),
        tvg_logo := logoPolicy cArgsC9w cEntC9w,
        group_idx := 0,
        channel_idx := sysMaxsize } := by
  refine ⟨by decide, ?_⟩
  exact C9_roundtrip cArgsC9w rxNever rsubId [cEntC9w] cEntC9w (some 42)
    "BBC One" "News" "BBC One" "http://u/1"
    (by decide) rfl (by decide) (by decide) rfl (by decide) (by decide)
    rfl (by decide) rfl (by decide)
    (fun i hi => by rw [← Option.some.inj hi]; decide)
    (Or.inr ⟨"BBC1", rfl, by decide⟩)
    (fun l hl => by rw [← Option.some.inj hl]; decide)
    (fun t ht => by rw [← Option.some.inj ht]; decide)
    (fun c hc => by rw [← Option.some.inj hc]; decide)
    (fun c hc => by rw [← Option.some.inj hc]; decide)
    (fun c hc => by rw [← Option.some.inj hc]; decide)

end M3U
